import Mathlib

/-!
Verification of the VibeZstd binding layer (cctx.c, dctx.c, frames.c,
streaming.c).  Byte sequences are modelled as `List Nat`, machine sizes as
`Nat`.  The zstd codec itself is an external collaborator: its one-shot
operations are abstracted behind a `Zstd` record with a stated contract,
and its streaming operations behind step functions; an executable reference
codec instantiates them for concrete evaluation.  The well-documented
skippable-frame byte format and all loops of the binding are modelled
concretely.  Each raise site of the C code is mapped to a constructor of
`VZErr`.
-/

/-- Error taxonomy of the binding: one constructor per kind of raise site. -/
inductive VZErr where
  | argumentError
  | outOfBounds
  | invalidFrame
  | compressionFailure
  | decompressionFailure
  | runtimeError
deriving DecidableEq, Repr

/-- Result of `ZSTD_getFrameContentSize`. -/
inductive FCS where
  | known (n : Nat)
  | unknown
  | error
deriving DecidableEq, Repr

/-- Little-endian 4-byte encoding of a 32-bit value (`MEM_writeLE32`). -/
def writeLE32 (n : Nat) : List Nat :=
  [n % 256, n / 256 % 256, n / 65536 % 256, n / 16777216 % 256]

/-- Little-endian read of the first four bytes of a buffer (`MEM_readLE32`). -/
def readLE32 (l : List Nat) : Nat :=
  l.getD 0 0 + 256 * l.getD 1 0 + 65536 * l.getD 2 0 + 16777216 * l.getD 3 0

/-- `ZSTD_MAGIC_SKIPPABLE_START`. -/
def ZSTD_MAGIC_SKIPPABLE_START : Nat := 0x184D2A50

/-- `ZSTD_isSkippableFrame`: at least four bytes and the little-endian magic,
masked by `ZSTD_MAGIC_SKIPPABLE_MASK = 0xFFFFFFF0`, equals the skippable base. -/
def isSkippableFrame (data : List Nat) : Bool :=
  4 ≤ data.length && (readLE32 data &&& 0xFFFFFFF0 == ZSTD_MAGIC_SKIPPABLE_START)

/-- `ZSTD_readSkippableFrameSize`: header present, declared 4-byte little-endian
length, whole frame (`8 + declared`) must fit in the buffer. -/
def readSkippableFrameSize (src : List Nat) : Except VZErr Nat :=
  if src.length < 8 then .error .runtimeError
  else
    let sizeU32 := readLE32 (src.drop 4)
    if sizeU32 + 8 < sizeU32 then .error .runtimeError
    else if src.length < sizeU32 + 8 then .error .runtimeError
    else .ok (sizeU32 + 8)

/-- `ZSTD_writeSkippableFrame` into a buffer of capacity `dstCapacity`:
magic base OR'd with the variant, little-endian length, then the content.
The codec rejects contents whose length does not fit the 32-bit field. -/
def zstd_writeSkippableFrame (dstCapacity : Nat) (src : List Nat)
    (magicVariant : Nat) : Except VZErr (List Nat) :=
  if dstCapacity < src.length + 8 then .error .runtimeError
  else if 4294967295 < src.length then .error .runtimeError
  else if 16 ≤ magicVariant then .error .runtimeError
  else .ok (writeLE32 (ZSTD_MAGIC_SKIPPABLE_START + magicVariant) ++
            writeLE32 src.length ++ src)

/-- `ZSTD_readSkippableFrame` with destination capacity `dstCapacity`:
returns the frame content and the magic variant. -/
def zstd_readSkippableFrame (dstCapacity : Nat) (src : List Nat) :
    Except VZErr (List Nat × Nat) :=
  if src.length < 8 then .error .runtimeError
  else
    let magicNumber := readLE32 src
    match readSkippableFrameSize src with
    | .error e => .error e
    | .ok frameSize =>
      let contentSize := frameSize - 8
      if isSkippableFrame src = false then .error .runtimeError
      else if dstCapacity < contentSize then .error .runtimeError
      else .ok ((src.drop 8).take contentSize,
                magicNumber - ZSTD_MAGIC_SKIPPABLE_START)

/-- `vibe_zstd_write_skippable_frame` (frames.c): validates the variant range
before calling the codec with a buffer of exactly `8 + len` bytes. -/
def vibe_zstd_write_skippable_frame (data : List Nat) (magic_number : Nat) :
    Except VZErr (List Nat) :=
  if 15 < magic_number then .error .argumentError
  else
    let frame_size := 8 + data.length
    match zstd_writeSkippableFrame frame_size data magic_number with
    | .error _ => .error .runtimeError
    | .ok written => .ok written

/-- `vibe_zstd_read_skippable_frame` (frames.c): rejects non-skippable or
short input with `ArgumentError`, reads the 4-byte little-endian content
length, then extracts content and magic variant. -/
def vibe_zstd_read_skippable_frame (data : List Nat) :
    Except VZErr (List Nat × Nat) :=
  if isSkippableFrame data = false then .error .argumentError
  else if data.length < 8 then .error .argumentError
  else
    let content_size := readLE32 (data.drop 4)
    match zstd_readSkippableFrame content_size data with
    | .error _ => .error .runtimeError
    | .ok res => .ok res

/-- The exact byte layout of a skippable frame produced by the writer. -/
def skippableFrameBytes (content : List Nat) (variant : Nat) : List Nat :=
  writeLE32 (ZSTD_MAGIC_SKIPPABLE_START + variant) ++
  writeLE32 content.length ++ content

/-- Concatenation of a list of skippable frames given as (content, variant). -/
def joinFrames (frames : List (List Nat × Nat)) : List Nat :=
  (frames.map (fun cv => skippableFrameBytes cv.1 cv.2)).flatten

/-- `ZSTD_findFrameCompressedSize`: skippable frames are measured by their
header; non-skippable frames are walked by the codec (abstracted). -/
def findFrameCompressedSize (findNS : List Nat → Except VZErr Nat)
    (data : List Nat) : Except VZErr Nat :=
  if isSkippableFrame data then readSkippableFrameSize data else findNS data

/-- The leading-skippable-frame skip loop of `vibe_zstd_dctx_decompress`
(dctx.c): while the suffix at `offset` is a skippable frame, advance by the
frame's compressed size.  The fuel is an iteration bound supplied by the
caller; every iteration advances `offset` by at least 8 bytes. -/
def skip_skippable_loop (findNS : List Nat → Except VZErr Nat) :
    Nat → List Nat → Nat → Except VZErr Nat
  | 0, _, _ => .error .runtimeError
  | fuel + 1, src, offset =>
    if offset < src.length ∧ isSkippableFrame (src.drop offset) then
      match findFrameCompressedSize findNS (src.drop offset) with
      | .error _ => .error .runtimeError
      | .ok frameSize => skip_skippable_loop findNS fuel src (offset + frameSize)
    else .ok offset

/-- `vibe_zstd_cctx_set_param_generic` (cctx.c): query bounds, reject a value
outside the closed range, otherwise hand it to the engine. -/
def vibe_zstd_cctx_set_param_generic (bounds : Except VZErr (Int × Int))
    (engineSet : Int → Except VZErr Unit) (val : Int) : Except VZErr Unit :=
  match bounds with
  | .error _ => .error .runtimeError
  | .ok (lowerBound, upperBound) =>
    if val < lowerBound ∨ upperBound < val then .error .outOfBounds
    else engineSet val

/-- `vibe_zstd_dctx_set_param_generic` (dctx.c): same shape as the cctx one. -/
def vibe_zstd_dctx_set_param_generic (bounds : Except VZErr (Int × Int))
    (engineSet : Int → Except VZErr Unit) (val : Int) : Except VZErr Unit :=
  match bounds with
  | .error _ => .error .runtimeError
  | .ok (lowerBound, upperBound) =>
    if val < lowerBound ∨ upperBound < val then .error .outOfBounds
    else engineSet val

/-- The initial-capacity fallback chain of `vibe_zstd_dctx_decompress`
(dctx.c lines 311-320); `0` encodes "not set" exactly as in the C code. -/
def resolve_initial_capacity (perCall instanceCap classCap zstdDefault : Nat) :
    Nat :=
  if perCall = 0 then
    if instanceCap = 0 then
      if classCap = 0 then zstdDefault else classCap
    else instanceCap
  else perCall

/-- The capacity fallback chain as the specification words it: per-call
override, else per-session override, else process-wide default, else the
codec-suggested size. -/
def specCapacityChain (perCall instanceCap classCap : Option Nat)
    (zstdDefault : Nat) : Nat :=
  perCall.getD (instanceCap.getD (classCap.getD zstdDefault))

/-- `vibe_zstd_dctx_frame_content_size` (dctx.c): maps both the codec's
Error and Unknown outcomes to the nil sentinel (`none`). -/
def vibe_zstd_dctx_frame_content_size (fcs : List Nat → FCS)
    (data : List Nat) : Option Nat :=
  match fcs data with
  | .error => none
  | .unknown => none
  | .known n => some n

/-- Default chunk size for an unbounded `StreamReader.read`
(streaming.c line 307): the session override if positive, else
`ZSTD_DStreamOutSize()`. -/
def reader_default_chunk_size (initial_chunk_size dStreamOutSize : Nat) : Nat :=
  if 0 < initial_chunk_size then initial_chunk_size else dStreamOutSize

/-- Resolution of the requested size of `vibe_zstd_reader_read`
(streaming.c line 308). -/
def reader_requested_size (size_arg : Option Nat)
    (initial_chunk_size dStreamOutSize : Nat) : Nat :=
  match size_arg with
  | none => reader_default_chunk_size initial_chunk_size dStreamOutSize
  | some n => n

/-- The reader chunk-size fallback as the specification words it:
per-session override, else process-wide override, else the
engine-recommended streaming output size. -/
def specReaderChunkChain (sessionOverride processOverride : Option Nat)
    (engineRecommended : Nat) : Nat :=
  sessionOverride.getD (processOverride.getD engineRecommended)

/-- Outcome of one incremental codec call (`ZSTD_decompressStream` /
`ZSTD_compressStream2`): produced bytes, consumed input, return code and
the updated engine state. -/
structure StepRes (σ : Type) where
  out : List Nat
  consumed : Nat
  ret : Except VZErr Nat
  st : σ

/-- `ZSTD_decompressStream` abstracted: state, remaining input window and
output capacity to a step result. -/
def DStepFn (σ : Type) : Type := σ → List Nat → Nat → StepRes σ

/-- `ZSTD_EndDirective`. -/
inductive ZSTD_EndDirective where
  | e_continue
  | e_flush
  | e_end
deriving DecidableEq, Repr

/-- `ZSTD_compressStream2` abstracted. -/
def CStepFn (σ : Type) : Type :=
  σ → List Nat → Nat → ZSTD_EndDirective → StepRes σ

/-- The capacity-doubling loop of the unknown-size path (dctx.c line 346):
double `cap` until it reaches `needed`.  On the modelled path `cap` is
always positive; the fuel `needed` is always sufficient since doubling from
1 reaches `needed` within `needed` steps. -/
def growCapAux : Nat → Nat → Nat → Nat
  | 0, cap, _ => cap
  | f + 1, cap, needed => if cap < needed then growCapAux f (cap * 2) needed else cap

/-- Capacity after the doubling loop. -/
def growCap (cap needed : Nat) : Nat := growCapAux needed cap needed

/-- One engine invocation recorded in a decompression trace. -/
inductive EngCall where
  | oneShotDec (dict : Option Nat)
  | streamStep
deriving DecidableEq, Repr

/-- The unknown-content-size streaming loop of `vibe_zstd_dctx_decompress`
(dctx.c lines 323-361): while input remains, decode into a scratch chunk of
`chunk_size` bytes, growing the result buffer by doubling whenever the next
append would exceed its capacity; the result is trimmed to its exact length
(the accumulator).  Also returns the final capacity and the trace of engine
calls.  Fuel is supplied by the caller. -/
def dctx_unknown_loop {σ : Type} (dstep : DStepFn σ) (chunk_size : Nat) :
    Nat → σ → List Nat → Nat → List Nat → Nat → List EngCall →
    (Except VZErr (List Nat × Nat)) × List EngCall
  | 0, _, _, _, _, _, trace => (.error .runtimeError, trace)
  | fuel + 1, st, src, pos, result, cap, trace =>
    if pos < src.length then
      let res := dstep st (src.drop pos) chunk_size
      let trace := trace ++ [.streamStep]
      match res.ret with
      | .error _ => (.error .decompressionFailure, trace)
      | .ok _ =>
        if 0 < res.out.length then
          let needed := result.length + res.out.length
          let cap' := if cap < needed then growCap cap needed else cap
          dctx_unknown_loop dstep chunk_size fuel res.st src (pos + res.consumed)
            (result ++ res.out) cap' trace
        else
          dctx_unknown_loop dstep chunk_size fuel res.st src (pos + res.consumed)
            result cap trace
    else (.ok (result, cap), trace)

/-- The abstract one-shot codec interface consumed by the binding
(out of scope of the binding itself). -/
structure Zstd where
  compressBound : Nat → Nat
  defaultCLevel : Nat
  setPledgedSrcSize : Nat → Except VZErr Unit
  compressCCtx : Option Nat → Nat → List Nat → Except VZErr (List Nat)
  compressUsingCDict : Option Nat → Nat → List Nat → Except VZErr (List Nat)
  decompressDCtx : Nat → List Nat → Except VZErr (List Nat)
  decompressUsingDDict : Nat → Nat → List Nat → Except VZErr (List Nat)
  getFrameContentSize : List Nat → FCS
  findNonSkippableFrameSize : List Nat → Except VZErr Nat
  dStreamOutSize : Nat

/-- `vibe_zstd_cctx_compress` (cctx.c lines 83-145): optionally pledge the
source size, allocate `compressBound(len)` bytes, run the dictionary or
level based one-shot compression, truncate to the engine-reported length
(the engine's returned bytes).  The engine state relevant to one-shot
compression is the pledge, passed explicitly. -/
def vibe_zstd_cctx_compress (Z : Zstd) (data : List Nat) (level : Option Nat)
    (dict : Option Nat) (pledged_size : Option Nat) : Except VZErr (List Nat) :=
  let lvl := level.getD Z.defaultCLevel
  match (match pledged_size with
         | some p => Z.setPledgedSrcSize p
         | none => .ok ()) with
  | .error _ => .error .runtimeError
  | .ok _ =>
    let res := match dict with
      | some d => Z.compressUsingCDict pledged_size d data
      | none => Z.compressCCtx pledged_size lvl data
    match res with
    | .error _ => .error .compressionFailure
    | .ok out => .ok out

/-- `vibe_zstd_dctx_decompress` (dctx.c lines 257-378): skip leading
skippable frames, fail `InvalidFrame` if nothing remains, query the frame
content size (Error fails `InvalidFrame`), validate the per-call
`initial_capacity`, resolve the capacity fallback chain, then either run
the unknown-size streaming loop (which never references the dictionary) or
the exact-size one-shot decompression (dictionary variant if supplied).
Returns the result together with the trace of engine calls. -/
def vibe_zstd_dctx_decompress {σ : Type} (Z : Zstd) (dstep : DStepFn σ)
    (dstInit : σ) (data : List Nat) (dict : Option Nat)
    (initial_capacity_arg : Option Nat) (instanceCap classCap : Nat) :
    (Except VZErr (List Nat)) × List EngCall :=
  match skip_skippable_loop Z.findNonSkippableFrameSize (data.length + 1) data 0 with
  | .error e => (.error e, [])
  | .ok offset =>
    if data.length ≤ offset then (.error .invalidFrame, [])
    else
      let src := data.drop offset
      let contentSize := Z.getFrameContentSize src
      if contentSize = .error then (.error .invalidFrame, [])
      else if initial_capacity_arg = some 0 then (.error .argumentError, [])
      else
        let perCall := initial_capacity_arg.getD 0
        let initial_capacity :=
          resolve_initial_capacity perCall instanceCap classCap Z.dStreamOutSize
        match contentSize with
        | .unknown =>
          let chunk_size := Z.dStreamOutSize
          (match dctx_unknown_loop dstep chunk_size (src.length + 1) dstInit src 0
              [] initial_capacity [] with
           | (.error e, tr) => (.error e, tr)
           | (.ok (result, _), tr) => (.ok result, tr))
        | .known n =>
          (match dict with
           | some d =>
             (match Z.decompressUsingDDict d n src with
              | .error _ => (.error .decompressionFailure, [.oneShotDec (some d)])
              | .ok out => (.ok out, [.oneShotDec (some d)]))
           | none =>
             (match Z.decompressDCtx n src with
              | .error _ => (.error .decompressionFailure, [.oneShotDec none])
              | .ok out => (.ok out, [.oneShotDec none])))
        | .error => (.error .invalidFrame, [])

/-- State of a `StreamWriter`: the engine state and the byte sink. -/
structure WriterSt (σ : Type) where
  cst : σ
  sink : List Nat

/-- The `vibe_zstd_writer_write` loop (streaming.c lines 111-131): while
input remains, run the engine in continue mode with a scratch buffer of
`outBufferSize` bytes and immediately forward produced bytes to the sink. -/
def vibe_zstd_writer_write_loop {σ : Type} (cstep : CStepFn σ)
    (outBufferSize : Nat) : Nat → WriterSt σ → List Nat → Nat →
    Except VZErr (WriterSt σ)
  | 0, _, _, _ => .error .runtimeError
  | fuel + 1, wst, data, pos =>
    if pos < data.length then
      let res := cstep wst.cst (data.drop pos) outBufferSize .e_continue
      match res.ret with
      | .error _ => .error .compressionFailure
      | .ok _ =>
        let wst' : WriterSt σ :=
          { cst := res.st
            sink := if 0 < res.out.length then wst.sink ++ res.out else wst.sink }
        vibe_zstd_writer_write_loop cstep outBufferSize fuel wst' data
          (pos + res.consumed)
    else .ok wst

/-- `vibe_zstd_writer_write` (streaming.c lines 93-134). -/
def vibe_zstd_writer_write {σ : Type} (cstep : CStepFn σ) (outBufferSize : Nat)
    (wst : WriterSt σ) (data : List Nat) : Except VZErr (WriterSt σ) :=
  vibe_zstd_writer_write_loop cstep outBufferSize (data.length + 1) wst data 0

/-- The `vibe_zstd_writer_finish` do-while loop (streaming.c lines 185-203):
drive the engine in end mode, forwarding scratch output to the sink, until
it reports zero remaining epilogue bytes. -/
def vibe_zstd_writer_end_loop {σ : Type} (cstep : CStepFn σ)
    (outBufferSize : Nat) : Nat → WriterSt σ → Except VZErr (WriterSt σ)
  | 0, _ => .error .runtimeError
  | fuel + 1, wst =>
    let res := cstep wst.cst [] outBufferSize .e_end
    match res.ret with
    | .error _ => .error .compressionFailure
    | .ok remaining =>
      let wst' : WriterSt σ :=
        { cst := res.st
          sink := if 0 < res.out.length then wst.sink ++ res.out else wst.sink }
      if 0 < remaining then vibe_zstd_writer_end_loop cstep outBufferSize fuel wst'
      else .ok wst'

/-- `vibe_zstd_writer_finish` (streaming.c lines 172-206); the fuel bounds
the number of epilogue iterations. -/
def vibe_zstd_writer_finish {σ : Type} (cstep : CStepFn σ) (outBufferSize : Nat)
    (fuel : Nat) (wst : WriterSt σ) : Except VZErr (WriterSt σ) :=
  vibe_zstd_writer_end_loop cstep outBufferSize fuel wst

/-- State of a `StreamReader` (struct vibe_zstd_dstream): engine state, the
pending input window (`input_data` with its consumed position), the byte
source with its cursor, the end-of-stream flag, and instrumentation
counters for engine invocations and source reads. -/
structure ReaderSt (σ : Type) where
  dst : σ
  win : List Nat
  winPos : Nat
  source : List Nat
  srcPos : Nat
  eof : Bool
  engineCalls : Nat
  sourceReads : Nat

/-- `io.read(n)` on a byte source: nil at end of data, else up to `n`
bytes. -/
def ioRead (source : List Nat) (pos n : Nat) : Option (List Nat) :=
  if source.length ≤ pos then none else some ((source.drop pos).take n)

/-- The post-loop epilogue of `vibe_zstd_reader_read` (streaming.c lines
378-384): zero bytes produced marks end-of-stream and yields nil, otherwise
the accumulated bytes are returned trimmed. -/
def reader_finish {σ : Type} (acc : List Nat) (st : ReaderSt σ) :
    Option (List Nat) × ReaderSt σ :=
  if acc.length = 0 then (none, { st with eof := true }) else (some acc, st)

/-- The input-window refill block at the top of each `vibe_zstd_reader_read`
loop iteration (streaming.c lines 318-339): when the window is fully
consumed, pull a chunk of `inBufferSize` bytes from the source; end-of-data
sets the eof flag and finishes the call (`Sum.inl`), a chunk replaces the
window (`Sum.inr`). -/
def reader_refill {σ : Type} (inBufferSize : Nat) (st : ReaderSt σ)
    (acc : List Nat) (made_progress : Bool) :
    (Option (List Nat) × ReaderSt σ) ⊕ ReaderSt σ :=
  if st.win.length ≤ st.winPos then
    match ioRead st.source st.srcPos inBufferSize with
    | none =>
      let st' : ReaderSt σ :=
        { st with eof := true, sourceReads := st.sourceReads + 1 }
      if acc.length = 0 ∧ made_progress = false then
        Sum.inl ((none : Option (List Nat)), st')
      else Sum.inl (reader_finish acc st')
    | some chunk =>
      Sum.inr { st with win := chunk, winPos := 0
                        srcPos := st.srcPos + chunk.length
                        sourceReads := st.sourceReads + 1 }
  else Sum.inr st

/-- The main loop of `vibe_zstd_reader_read` (streaming.c lines 317-376):
refill the input window from the source when consumed (source end-of-data
sets the eof flag and ends the call), feed the window to the engine with
the remaining output space, accumulate produced bytes, stop when enough
bytes were produced or the engine reports frame completion (`ret == 0`). -/
def vibe_zstd_reader_loop {σ : Type} (dstep : DStepFn σ)
    (inBufferSize requested : Nat) : Nat → ReaderSt σ → List Nat → Bool →
    Except VZErr (Option (List Nat) × ReaderSt σ)
  | 0, _, _, _ => .error .runtimeError
  | fuel + 1, st, acc, made_progress =>
    if acc.length < requested then
      match reader_refill inBufferSize st acc made_progress with
      | Sum.inl finished => .ok finished
      | Sum.inr st =>
        if st.win.length = 0 then
          .ok (reader_finish acc { st with eof := true })
        else
          let space := requested - acc.length
          let res := dstep st.dst (st.win.drop st.winPos) space
          let st : ReaderSt σ :=
            { st with dst := res.st, winPos := st.winPos + res.consumed
                      engineCalls := st.engineCalls + 1 }
          match res.ret with
          | .error _ => .error .decompressionFailure
          | .ok ret =>
            let acc := acc ++ res.out
            let made_progress := made_progress || decide (0 < res.out.length)
            if requested ≤ acc.length then .ok (reader_finish acc st)
            else if ret = 0 then
              .ok (reader_finish acc { st with eof := true })
            else vibe_zstd_reader_loop dstep inBufferSize requested fuel st acc
              made_progress
    else .ok (reader_finish acc st)

/-- `vibe_zstd_reader_read` (streaming.c lines 293-385): sticky end-of-stream
short-circuit, requested-size resolution, then the main loop.  The internal
fuel bounds loop iterations: each one either consumes a pending byte or
ends the call. -/
def vibe_zstd_reader_read {σ : Type} (dstep : DStepFn σ) (inBufferSize : Nat)
    (initial_chunk_size dStreamOutSize : Nat) (size_arg : Option Nat)
    (st : ReaderSt σ) : Except VZErr (Option (List Nat) × ReaderSt σ) :=
  if st.eof then .ok (none, st)
  else
    let requested := reader_requested_size size_arg initial_chunk_size dStreamOutSize
    vibe_zstd_reader_loop dstep inBufferSize requested
      ((st.win.length - st.winPos) + (st.source.length - st.srcPos) + 2) st [] false

/-- `vibe_zstd_reader_eof` (streaming.c lines 387-392). -/
def vibe_zstd_reader_eof {σ : Type} (st : ReaderSt σ) : Bool := st.eof

/-- `vibe_zstd_reader_initialize` input-buffer state (streaming.c lines
265-271): empty window, position 0, eof unset. -/
def initReader {σ : Type} (dstInit : σ) (source : List Nat) : ReaderSt σ :=
  { dst := dstInit, win := [], winPos := 0, source := source, srcPos := 0
    eof := false, engineCalls := 0, sourceReads := 0 }

/-- Repeatedly call `read(req)` until it returns the end-of-stream marker,
collecting the returned chunks. -/
def reader_read_all {σ : Type} (dstep : DStepFn σ) (inBufferSize req : Nat) :
    Nat → ReaderSt σ → Option (List (List Nat))
  | 0, _ => none
  | fuel + 1, st =>
    match vibe_zstd_reader_read dstep inBufferSize 0 1 (some req) st with
    | .error _ => none
    | .ok (none, _) => some []
    | .ok (some chunk, st') =>
      match reader_read_all dstep inBufferSize req fuel st' with
      | none => none
      | some cs => some (chunk :: cs)

/-- Split a list into consecutive chunks of size `c` (fuelled by length). -/
def chunksOfAux (c : Nat) : Nat → List Nat → List (List Nat)
  | 0, _ => []
  | f + 1, l => if l.length = 0 then [] else l.take c :: chunksOfAux c f (l.drop c)

/-- Consecutive chunks of size `c`. -/
def chunksOf (c : Nat) (l : List Nat) : List (List Nat) := chunksOfAux c l.length l

/-- Feed a list of chunks through `vibe_zstd_writer_write` in order. -/
def writer_write_chunks {σ : Type} (cstep : CStepFn σ) (outBufferSize : Nat) :
    List (List Nat) → WriterSt σ → Except VZErr (WriterSt σ)
  | [], wst => .ok wst
  | d :: ds, wst =>
    match vibe_zstd_writer_write cstep outBufferSize wst d with
    | .error e => .error e
    | .ok wst' => writer_write_chunks cstep outBufferSize ds wst'

/-- A fresh writer over an empty sink. -/
def initWriter {σ : Type} (cInit : σ) : WriterSt σ :=
  { cst := cInit, sink := [] }

/-- Decoder states of the reference streaming codec: expecting a tag byte,
expecting the literal after a `1` tag, or past the terminating `0` tag. -/
inductive DSt where
  | tag
  | lit
  | done
deriving DecidableEq, Repr

/-- Reference stream encoding: each payload byte `x` becomes `1, x`; the
frame ends with a `0` tag. -/
def tenc : List Nat → List Nat
  | [] => [0]
  | x :: r => 1 :: x :: tenc r

/-- Greedy single-call decoder of the reference stream format: consumes
input until it is exhausted, the output space is full, or the end tag is
reached; returns (produced, consumed, return code, state), the return code
being 0 exactly on frame completion. -/
def toyDStepCore : DSt → List Nat → Nat → List Nat × Nat × Nat × DSt
  | .done, _, _ => ([], 0, 0, .done)
  | st, [], _ => ([], 0, 1, st)
  | .tag, t :: rest, space =>
    if t = 0 then ([], 1, 0, .done)
    else
      match toyDStepCore .lit rest space with
      | (out, c, ret, st') => (out, c + 1, ret, st')
  | .lit, x :: rest, space =>
    if space = 0 then ([], 0, 1, .lit)
    else
      match toyDStepCore .tag rest (space - 1) with
      | (out, c, ret, st') => (x :: out, c + 1, ret, st')

/-- The reference decoder as a `ZSTD_decompressStream` step function. -/
def toyDStep : DStepFn DSt := fun st inp space =>
  match toyDStepCore st inp space with
  | (out, c, ret, st') => { out := out, consumed := c, ret := .ok ret, st := st' }

/-- Reference compression engine state: bytes buffered so far and, once the
end directive has started, the pending encoded frame suffix. -/
structure CSt where
  acc : List Nat
  pending : Option (List Nat)
deriving DecidableEq, Repr

/-- The reference engine as a `ZSTD_compressStream2` step function:
continue buffers all input and produces nothing; flush has nothing to do;
end emits the encoded frame through the scratch buffer, reporting the
number of bytes still pending. -/
def toyCStep : CStepFn CSt := fun st inp outCap dir =>
  match dir with
  | .e_continue =>
    { out := [], consumed := inp.length, ret := .ok 1
      st := { st with acc := st.acc ++ inp } }
  | .e_flush => { out := [], consumed := 0, ret := .ok 0, st := st }
  | .e_end =>
    let p := st.pending.getD (tenc st.acc)
    { out := p.take outCap, consumed := inp.length
      ret := .ok (p.drop outCap).length
      st := { st with pending := some (p.drop outCap) } }

/-- A fresh reference compression engine. -/
def initCSt : CSt := { acc := [], pending := none }

/-- Write `b` through the StreamWriter in chunks of size `c`, then finish. -/
def writer_pipeline (outBufferSize : Nat) (b : List Nat) (c : Nat) :
    Except VZErr (WriterSt CSt) :=
  match writer_write_chunks toyCStep outBufferSize (chunksOf c b)
      (initWriter initCSt) with
  | .error e => .error e
  | .ok wst => vibe_zstd_writer_finish toyCStep outBufferSize (2 * b.length + 2) wst

/-- Executable reference instance of the one-shot codec: level frames are
`[7,7,7,7]` followed by the payload, dictionary frames `[6,6,6,6,d]`
followed by the payload, and `[8,8,8,8]...` frames report unknown content
size. -/
def toyZstd : Zstd where
  compressBound n := n + 8
  defaultCLevel := 3
  setPledgedSrcSize _ := .ok ()
  compressCCtx _ _ b := .ok (7 :: 7 :: 7 :: 7 :: b)
  compressUsingCDict _ d b := .ok (6 :: 6 :: 6 :: 6 :: d :: b)
  decompressDCtx cap data :=
    match data with
    | 7 :: 7 :: 7 :: 7 :: rest =>
      if rest.length ≤ cap then .ok rest else .error .decompressionFailure
    | _ => .error .decompressionFailure
  decompressUsingDDict d cap data :=
    match data with
    | 6 :: 6 :: 6 :: 6 :: d' :: rest =>
      if d' = d then
        if rest.length ≤ cap then .ok rest else .error .decompressionFailure
      else .error .decompressionFailure
    | _ => .error .decompressionFailure
  getFrameContentSize data :=
    match data with
    | 7 :: 7 :: 7 :: 7 :: rest => .known rest.length
    | 6 :: 6 :: 6 :: 6 :: _ :: rest => .known rest.length
    | 8 :: 8 :: 8 :: 8 :: _ => .unknown
    | _ => .error
  findNonSkippableFrameSize _ := .error .runtimeError
  dStreamOutSize := 4

/-- Contract of a conforming one-shot codec: the suggested streaming size
is positive, pledges on a fresh context are accepted, and compression
(level or dictionary based, with no pledge or a truthful one) produces a
non-empty non-skippable frame of known content size that the matching
one-shot decompression, given exactly that capacity, inverts. -/
def ZstdRoundTrip (Z : Zstd) : Prop :=
  1 ≤ Z.dStreamOutSize ∧
  (∀ p, Z.setPledgedSrcSize p = .ok ()) ∧
  (∀ p lvl b, (p = none ∨ p = some b.length) →
    ∃ out, Z.compressCCtx p lvl b = .ok out ∧ out ≠ [] ∧
      isSkippableFrame out = false ∧
      Z.getFrameContentSize out = .known b.length ∧
      Z.decompressDCtx b.length out = .ok b) ∧
  (∀ p d b, (p = none ∨ p = some b.length) →
    ∃ out, Z.compressUsingCDict p d b = .ok out ∧ out ≠ [] ∧
      isSkippableFrame out = false ∧
      Z.getFrameContentSize out = .known b.length ∧
      Z.decompressUsingDDict d b.length out = .ok b)

/-- Decoding invariant over the reference stream format: from state `d`,
the byte stream `s` decodes to exactly the payload `r` and then ends. -/
def DecRepr : DSt → List Nat → List Nat → Prop
  | .tag, s, r => s = tenc r
  | .lit, s, r => ∃ x r2, r = x :: r2 ∧ s = x :: tenc r2
  | .done, s, r => r = [] ∧ s = []

/-- The bytes still pending for a reader: the unconsumed part of the input
window followed by the unread part of the source. -/
def readerPend {σ : Type} (st : ReaderSt σ) : List Nat :=
  st.win.drop st.winPos ++ st.source.drop st.srcPos

/-- Reader invariant over the reference codec: `e` payload bytes of `b`
have been emitted so far, the stream is not exhausted, and the pending
bytes decode (from the current engine state) to the rest of `b`. -/
def ReaderInv (b : List Nat) (e : Nat) (st : ReaderSt DSt) : Prop :=
  e ≤ b.length ∧ st.eof = false ∧ DecRepr st.dst (readerPend st) (b.drop e)

/-- Reader invariant allowing the exhausted terminal state, which is only
reachable once all of `b` has been emitted. -/
def ReaderInvE (b : List Nat) (e : Nat) (st : ReaderSt DSt) : Prop :=
  ReaderInv b e st ∨ (st.eof = true ∧ e = b.length)

theorem writeLE32_length (n : Nat) : (writeLE32 n).length = 4 := rfl

theorem readLE32_writeLE32 (n : Nat) (rest : List Nat) (h : n < 4294967296) :
    readLE32 (writeLE32 n ++ rest) = n := by
  simp only [writeLE32, readLE32, List.cons_append, List.getD, List.get?,
    Option.getD_some]
  omega

theorem masked_skippable_magic (v : Nat) (hv : v ≤ 15) :
    (ZSTD_MAGIC_SKIPPABLE_START + v) &&& 0xFFFFFFF0 =
      ZSTD_MAGIC_SKIPPABLE_START := by
  interval_cases v <;> decide

theorem isSkippableFrame_frame (content : List Nat) (v : Nat) (hv : v ≤ 15)
    (rest : List Nat) :
    isSkippableFrame (skippableFrameBytes content v ++ rest) = true := by
  have hm : ZSTD_MAGIC_SKIPPABLE_START + v < 4294967296 := by
    unfold ZSTD_MAGIC_SKIPPABLE_START; omega
  simp only [isSkippableFrame, skippableFrameBytes, List.append_assoc]
  rw [readLE32_writeLE32 _ _ hm]
  simp [masked_skippable_magic v hv, writeLE32, List.length_append]

theorem skippableFrameBytes_length (content : List Nat) (v : Nat) :
    (skippableFrameBytes content v).length = 8 + content.length := by
  simp [skippableFrameBytes, writeLE32]
  omega

theorem drop4_writeLE32 (m : Nat) (t : List Nat) :
    (writeLE32 m ++ t).drop 4 = t := rfl

theorem drop8_skippableFrameBytes (content : List Nat) (v : Nat)
    (t : List Nat) : (skippableFrameBytes content v ++ t).drop 8 =
      content ++ t := by
  simp only [skippableFrameBytes, writeLE32, List.cons_append, List.nil_append,
    List.append_assoc]
  rfl

theorem readSkippableFrameSize_frame (content : List Nat) (v : Nat)
    (rest : List Nat) (hlen : content.length < 4294967296) :
    readSkippableFrameSize (skippableFrameBytes content v ++ rest) =
      .ok (content.length + 8) := by
  have hdrop : (skippableFrameBytes content v ++ rest).drop 4 =
      writeLE32 content.length ++ (content ++ rest) := by
    simp only [skippableFrameBytes, List.append_assoc]
    exact drop4_writeLE32 _ _
  have hlength : (skippableFrameBytes content v ++ rest).length =
      8 + content.length + rest.length := by
    simp [skippableFrameBytes_length]
  unfold readSkippableFrameSize
  rw [hdrop, readLE32_writeLE32 _ _ hlen, hlength]
  simp only []
  split
  · omega
  · split
    · omega
    · split
      · omega
      · rfl

/-- C5 (amended): for contents whose length fits the 32-bit length field and
`magic_variant` in [0,15], `writeSkippableFrame` produces exactly the
`8 + len(content)` bytes "magic base OR'd with the variant, little-endian
length, content", `readSkippableFrame` inverts it to `(content, variant)`,
and `magic_variant = 16` fails with `ArgumentError` for every content. -/
theorem write_read_skippable_roundtrip (content : List Nat) (v : Nat)
    (hv : v ≤ 15) (hlen : content.length < 4294967296) :
    vibe_zstd_write_skippable_frame content v =
      .ok (skippableFrameBytes content v) ∧
    (skippableFrameBytes content v).length = 8 + content.length ∧
    vibe_zstd_read_skippable_frame (skippableFrameBytes content v) =
      .ok (content, v) ∧
    (∀ c2 : List Nat, vibe_zstd_write_skippable_frame c2 16 =
      .error .argumentError) := by
  have hm : ZSTD_MAGIC_SKIPPABLE_START + v < 4294967296 := by
    unfold ZSTD_MAGIC_SKIPPABLE_START; omega
  have hskip : isSkippableFrame (skippableFrameBytes content v) = true := by
    have := isSkippableFrame_frame content v hv []
    rwa [List.append_nil] at this
  have hflen : (skippableFrameBytes content v).length = 8 + content.length :=
    skippableFrameBytes_length content v
  have hsize : readSkippableFrameSize (skippableFrameBytes content v) =
      .ok (content.length + 8) := by
    have := readSkippableFrameSize_frame content v [] hlen
    rwa [List.append_nil] at this
  have hdrop4 : (skippableFrameBytes content v).drop 4 =
      writeLE32 content.length ++ content := by
    rw [skippableFrameBytes, List.append_assoc]
    exact drop4_writeLE32 _ _
  have hdrop8 : (skippableFrameBytes content v).drop 8 = content := by
    have := drop8_skippableFrameBytes content v []
    rwa [List.append_nil, List.append_nil] at this
  have hread : readLE32 (skippableFrameBytes content v) =
      ZSTD_MAGIC_SKIPPABLE_START + v := by
    rw [skippableFrameBytes, List.append_assoc]
    exact readLE32_writeLE32 _ _ hm
  refine ⟨?_, hflen, ?_, ?_⟩
  · unfold vibe_zstd_write_skippable_frame zstd_writeSkippableFrame
    rw [if_neg (by omega)]
    simp only []
    rw [if_neg (by omega), if_neg (by omega), if_neg (by omega)]
    rfl
  · unfold vibe_zstd_read_skippable_frame
    rw [hskip]
    simp only [Bool.true_eq_false, if_false, hflen]
    rw [if_neg (by omega), hdrop4, readLE32_writeLE32 _ _ hlen]
    unfold zstd_readSkippableFrame
    rw [if_neg (by omega), hsize]
    simp only [hskip, Bool.true_eq_false, if_false]
    rw [if_neg (by omega), hdrop8, hread]
    have : content.take (content.length + 8 - 8) = content := by
      simp
    rw [this]
    simp [ZSTD_MAGIC_SKIPPABLE_START]
  · intro c2
    unfold vibe_zstd_write_skippable_frame
    rw [if_pos (by omega)]

/-- C5 witness at a concrete content and variant. -/
theorem write_read_skippable_roundtrip_witness :
    vibe_zstd_write_skippable_frame [9, 10] 3 =
      .ok (skippableFrameBytes [9, 10] 3) ∧
    (skippableFrameBytes [9, 10] 3).length = 8 + 2 ∧
    vibe_zstd_read_skippable_frame (skippableFrameBytes [9, 10] 3) =
      .ok ([9, 10], 3) ∧
    (∀ c2 : List Nat, vibe_zstd_write_skippable_frame c2 16 =
      .error .argumentError) :=
  write_read_skippable_roundtrip [9, 10] 3 (by decide) (by decide)

/-- C5 counterexample: a content of length `2^32` cannot be framed (the
4-byte little-endian length field cannot represent it), so the write fails
with the codec error rather than producing an `8 + len` byte frame, and no
round trip happens; the claim over every byte sequence is false here. -/
theorem write_skippable_u32_overflow :
    vibe_zstd_write_skippable_frame (List.replicate 4294967296 0) 0 =
      .error .runtimeError := by
  have general : ∀ (c2 : List Nat) (v : Nat), v ≤ 15 →
      4294967295 < c2.length →
      vibe_zstd_write_skippable_frame c2 v = .error .runtimeError := by
    intro c2 v hv hbig
    unfold vibe_zstd_write_skippable_frame zstd_writeSkippableFrame
    rw [if_neg (show ¬ 15 < v by omega)]
    simp only []
    rw [if_neg (show ¬ 8 + c2.length < c2.length + 8 by omega), if_pos hbig]
  exact general _ 0 (by omega) (by rw [List.length_replicate]; norm_num)

/-- C6: for a registered parameter with runtime-queried bounds `(lo, hi)`
and an engine that accepts every in-range value, setting `hi + 1` fails
with the out-of-bounds error while setting `lo` and setting `hi` both
succeed, on the compression and the decompression setter alike. -/
theorem set_param_bounds_enforcement (lo hi : Int)
    (cset dset : Int → Except VZErr Unit) (hle : lo ≤ hi)
    (hc : ∀ v : Int, lo ≤ v → v ≤ hi → cset v = .ok ())
    (hd : ∀ v : Int, lo ≤ v → v ≤ hi → dset v = .ok ()) :
    vibe_zstd_cctx_set_param_generic (.ok (lo, hi)) cset (hi + 1) =
      .error .outOfBounds ∧
    vibe_zstd_cctx_set_param_generic (.ok (lo, hi)) cset lo = .ok () ∧
    vibe_zstd_cctx_set_param_generic (.ok (lo, hi)) cset hi = .ok () ∧
    vibe_zstd_dctx_set_param_generic (.ok (lo, hi)) dset (hi + 1) =
      .error .outOfBounds ∧
    vibe_zstd_dctx_set_param_generic (.ok (lo, hi)) dset lo = .ok () ∧
    vibe_zstd_dctx_set_param_generic (.ok (lo, hi)) dset hi = .ok () := by
  have hsucc : hi < hi + 1 := by omega
  have hlo : ¬ lo < lo := by omega
  have hhilo : ¬ hi < lo := by omega
  have hhi : ¬ hi < hi := by omega
  refine ⟨?_, ?_, ?_, ?_, ?_, ?_⟩
  · simp [vibe_zstd_cctx_set_param_generic, hsucc]
  · simp only [vibe_zstd_cctx_set_param_generic]
    rw [if_neg (by omega)]; exact hc lo le_rfl hle
  · simp only [vibe_zstd_cctx_set_param_generic]
    rw [if_neg (by omega)]; exact hc hi hle le_rfl
  · simp [vibe_zstd_dctx_set_param_generic, hsucc]
  · simp only [vibe_zstd_dctx_set_param_generic]
    rw [if_neg (by omega)]; exact hd lo le_rfl hle
  · simp only [vibe_zstd_dctx_set_param_generic]
    rw [if_neg (by omega)]; exact hd hi hle le_rfl

/-- C6 witness at concrete bounds 0..5 and an always-accepting engine. -/
theorem set_param_bounds_enforcement_witness :
    vibe_zstd_cctx_set_param_generic (.ok ((0 : Int), (5 : Int)))
      (fun _ => .ok ()) 6 = .error .outOfBounds ∧
    vibe_zstd_cctx_set_param_generic (.ok ((0 : Int), (5 : Int)))
      (fun _ => .ok ()) 0 = .ok () ∧
    vibe_zstd_cctx_set_param_generic (.ok ((0 : Int), (5 : Int)))
      (fun _ => .ok ()) 5 = .ok () ∧
    vibe_zstd_dctx_set_param_generic (.ok ((0 : Int), (5 : Int)))
      (fun _ => .ok ()) 6 = .error .outOfBounds ∧
    vibe_zstd_dctx_set_param_generic (.ok ((0 : Int), (5 : Int)))
      (fun _ => .ok ()) 0 = .ok () ∧
    vibe_zstd_dctx_set_param_generic (.ok ((0 : Int), (5 : Int)))
      (fun _ => .ok ()) 5 = .ok () :=
  set_param_bounds_enforcement 0 5 (fun _ => .ok ()) (fun _ => .ok ())
    (by decide) (fun _ _ _ => rfl) (fun _ _ _ => rfl)

/-- C7 counterexample: the reader's requested-size resolution consults no
process-wide override.  With the session override unset and the engine
recommending 42, the code resolves an omitted size to 42, while the claimed
three-level chain with a process-wide override of 777 would resolve to 777. -/
theorem reader_chunk_no_process_level :
    reader_requested_size none 0 42 = 42 ∧
    specReaderChunkChain none (some 777) 42 = 777 ∧ (42 : Nat) ≠ 777 := by
  refine ⟨rfl, rfl, by decide⟩

/-- C7 (amended): when `read` is called with no requested size, the number
of bytes requested is resolved through a two-level fallback: the
per-session chunk-size override if set, else the engine-recommended
streaming output size; no process-wide override is consulted.  An explicit
requested size is used as given. -/
theorem reader_requested_size_two_level (sess : Option Nat)
    (hs : sess ≠ some 0) (dOut : Nat) :
    reader_requested_size none (sess.getD 0) dOut =
      specReaderChunkChain sess none dOut ∧
    (∀ n : Nat, reader_requested_size (some n) (sess.getD 0) dOut = n) := by
  constructor
  · cases sess with
    | none => simp [reader_requested_size, reader_default_chunk_size,
        specReaderChunkChain]
    | some k =>
      have hk : 0 < k := by
        rcases Nat.eq_zero_or_pos k with h | h
        · subst h; exact absurd rfl hs
        · exact h
      simp [reader_requested_size, reader_default_chunk_size,
        specReaderChunkChain, hk]
  · intro n; rfl

/-- C7 witness at a concrete session override and engine size. -/
theorem reader_requested_size_two_level_witness :
    reader_requested_size none ((some 5 : Option Nat).getD 0) 3 =
      specReaderChunkChain (some 5) none 3 ∧
    (∀ n : Nat, reader_requested_size (some n) ((some 5 : Option Nat).getD 0) 3
      = n) :=
  reader_requested_size_two_level (some 5) (by decide) 3

/-- C10: the public frame-content-size query returns the nil sentinel
exactly when the codec reports Error or Unknown (collapsing the two
outcomes), and returns `n` exactly when the codec reports Known `n`. -/
theorem frame_content_size_collapse (fcs : List Nat → FCS) (data : List Nat) :
    (vibe_zstd_dctx_frame_content_size fcs data = none ↔
      (fcs data = .error ∨ fcs data = .unknown)) ∧
    (∀ n : Nat, vibe_zstd_dctx_frame_content_size fcs data = some n ↔
      fcs data = .known n) := by
  unfold vibe_zstd_dctx_frame_content_size
  cases h : fcs data <;> simp

theorem joinFrames_cons (cv : List Nat × Nat) (fs : List (List Nat × Nat)) :
    joinFrames (cv :: fs) = skippableFrameBytes cv.1 cv.2 ++ joinFrames fs := by
  simp [joinFrames]

theorem joinFrames_nil : joinFrames [] = [] := rfl

theorem frames_le_joinFrames (frames : List (List Nat × Nat)) :
    frames.length ≤ (joinFrames frames).length := by
  induction frames with
  | nil => simp [joinFrames_nil]
  | cons cv fs ih =>
    rw [joinFrames_cons]
    simp only [List.length_append, List.length_cons, skippableFrameBytes_length]
    omega

theorem skip_loop_skips (findNS : List Nat → Except VZErr Nat)
    (frames : List (List Nat × Nat)) :
    ∀ (rest src : List Nat) (offset fuel : Nat),
    (∀ cv ∈ frames, cv.1.length < 4294967296 ∧ cv.2 ≤ 15) →
    isSkippableFrame rest = false →
    src.drop offset = joinFrames frames ++ rest →
    offset ≤ src.length →
    frames.length < fuel →
    skip_skippable_loop findNS fuel src offset =
      .ok (offset + (joinFrames frames).length) := by
  induction frames with
  | nil =>
    intro rest src offset fuel _ hrest hdrop _ hfuel
    rw [joinFrames_nil, List.nil_append] at hdrop
    obtain ⟨g, rfl⟩ : ∃ g, fuel = g + 1 := ⟨fuel - 1, by omega⟩
    unfold skip_skippable_loop
    rw [if_neg (by rw [hdrop]; simp [hrest])]
    simp [joinFrames_nil]
  | cons cv fs ih =>
    intro rest src offset fuel hwf hrest hdrop hoff hfuel
    have hcv := hwf cv (List.mem_cons_self cv fs)
    have hwf' : ∀ x ∈ fs, x.1.length < 4294967296 ∧ x.2 ≤ 15 :=
      fun x hx => hwf x (List.mem_cons_of_mem cv hx)
    rw [joinFrames_cons, List.append_assoc] at hdrop
    have hdlen : (src.drop offset).length = src.length - offset :=
      List.length_drop offset src
    have hflen : (skippableFrameBytes cv.1 cv.2).length = 8 + cv.1.length :=
      skippableFrameBytes_length cv.1 cv.2
    have hlen8 : 8 + cv.1.length + (joinFrames fs ++ rest).length =
        src.length - offset := by
      rw [← hflen, ← List.length_append, ← hdrop, hdlen]
    have hofflt : offset < src.length := by omega
    have hskip : isSkippableFrame (src.drop offset) = true := by
      rw [hdrop]; exact isSkippableFrame_frame cv.1 cv.2 hcv.2 _
    have hsize : readSkippableFrameSize (src.drop offset) =
        .ok (cv.1.length + 8) := by
      rw [hdrop]; exact readSkippableFrameSize_frame cv.1 cv.2 _ hcv.1
    obtain ⟨g, rfl⟩ : ∃ g, fuel = g + 1 := ⟨fuel - 1, by omega⟩
    unfold skip_skippable_loop
    rw [if_pos ⟨hofflt, hskip⟩]
    unfold findFrameCompressedSize
    rw [hskip]
    simp only [if_true, hsize]
    have hdrop' : src.drop (offset + (cv.1.length + 8)) =
        joinFrames fs ++ rest := by
      have h1 : src.drop (offset + (cv.1.length + 8)) =
          (src.drop offset).drop (cv.1.length + 8) := by
        rw [List.drop_drop]
      rw [h1, hdrop]
      have h2 : cv.1.length + 8 = (skippableFrameBytes cv.1 cv.2).length := by
        rw [hflen]; omega
      rw [h2, List.drop_left]
    have hrec := ih rest src (offset + (cv.1.length + 8)) g hwf' hrest hdrop'
      (by omega) (by simpa using hfuel)
    rw [hrec, joinFrames_cons]
    simp only [List.length_append, hflen]
    congr 1
    omega

/-- C4: one-shot decompress skips every leading skippable frame, advancing
`8 + declared_length` bytes per frame (each frame contributes exactly its
`8 + len` bytes to the skipped offset) until a non-skippable frame is
reached or the input is exhausted; and when only skippable frames are
present, it fails with `InvalidFrame`. -/
theorem decompress_skips_leading_skippable {σ : Type} (Z : Zstd)
    (dstep : DStepFn σ) (dstInit : σ) (frames : List (List Nat × Nat))
    (rest : List Nat) (dict initial_capacity_arg : Option Nat)
    (instanceCap classCap : Nat)
    (hwf : ∀ cv ∈ frames, cv.1.length < 4294967296 ∧ cv.2 ≤ 15)
    (hrest : isSkippableFrame rest = false) :
    skip_skippable_loop Z.findNonSkippableFrameSize
        ((joinFrames frames ++ rest).length + 1) (joinFrames frames ++ rest) 0 =
      .ok (joinFrames frames).length ∧
    (vibe_zstd_dctx_decompress Z dstep dstInit (joinFrames frames) dict
        initial_capacity_arg instanceCap classCap).1 = .error .invalidFrame := by
  have hle := frames_le_joinFrames frames
  constructor
  · have h := skip_loop_skips Z.findNonSkippableFrameSize frames rest
      (joinFrames frames ++ rest) 0 ((joinFrames frames ++ rest).length + 1)
      hwf hrest (by simp) (Nat.zero_le _)
      (by simp only [List.length_append]; omega)
    simpa using h
  · have h0 : isSkippableFrame ([] : List Nat) = false := rfl
    have h := skip_loop_skips Z.findNonSkippableFrameSize frames []
      (joinFrames frames) 0 ((joinFrames frames).length + 1) hwf h0
      (by simp) (Nat.zero_le _) (by omega)
    rw [Nat.zero_add] at h
    unfold vibe_zstd_dctx_decompress
    rw [h]
    simp only []
    rw [if_pos (Nat.le_refl _)]

/-- C4 witness: one concrete skippable frame followed by a non-skippable
tail, and the invalid-frame failure on a skippable-only input. -/
theorem decompress_skips_leading_skippable_witness :
    skip_skippable_loop toyZstd.findNonSkippableFrameSize
        ((joinFrames [([1, 2], 0)] ++ [9, 9, 9, 9]).length + 1)
        (joinFrames [([1, 2], 0)] ++ [9, 9, 9, 9]) 0 =
      .ok (joinFrames [([1, 2], 0)]).length ∧
    (vibe_zstd_dctx_decompress toyZstd toyDStep DSt.tag
        (joinFrames [([1, 2], 0)]) none none 0 0).1 = .error .invalidFrame :=
  decompress_skips_leading_skippable toyZstd toyDStep DSt.tag [([1, 2], 0)]
    [9, 9, 9, 9] none none 0 0 (by decide) (by decide)

theorem skip_loop_nonskippable (findNS : List Nat → Except VZErr Nat)
    (fuel : Nat) (src : List Nat) (h : isSkippableFrame src = false)
    (hf : 0 < fuel) : skip_skippable_loop findNS fuel src 0 = .ok 0 := by
  obtain ⟨g, rfl⟩ : ∃ g, fuel = g + 1 := ⟨fuel - 1, by omega⟩
  unfold skip_skippable_loop
  rw [if_neg]
  rintro ⟨-, hs⟩
  rw [List.drop_zero, h] at hs
  exact Bool.false_ne_true hs

/-- The reference codec satisfies the round-trip contract. -/
theorem toyZstd_roundtrip : ZstdRoundTrip toyZstd := by
  refine ⟨by decide, fun p => rfl, ?_, ?_⟩
  · intro p lvl b hp
    refine ⟨7 :: 7 :: 7 :: 7 :: b, rfl, by simp, ?_, ?_, ?_⟩
    · have hr : readLE32 (7 :: 7 :: 7 :: 7 :: b) = 117901063 := by
        norm_num [readLE32, List.getD]
      unfold isSkippableFrame
      rw [hr]
      rw [show ((117901063 &&& 0xFFFFFFF0 : Nat) ==
        ZSTD_MAGIC_SKIPPABLE_START) = false from by decide]
      exact Bool.and_false _
    · rfl
    · simp [toyZstd]
  · intro p d b hp
    refine ⟨6 :: 6 :: 6 :: 6 :: d :: b, rfl, by simp, ?_, ?_, ?_⟩
    · have hr : readLE32 (6 :: 6 :: 6 :: 6 :: d :: b) = 101058054 := by
        norm_num [readLE32, List.getD]
      unfold isSkippableFrame
      rw [hr]
      rw [show ((101058054 &&& 0xFFFFFFF0 : Nat) ==
        ZSTD_MAGIC_SKIPPABLE_START) = false from by decide]
      exact Bool.and_false _
    · rfl
    · simp [toyZstd]

/-- C1: for every byte sequence `b` (including empty), one-shot decompress
of a one-shot compression of `b` returns `b`, for any conforming codec;
both with a dictionary supplied to both operations and without one, and
both with a truthful pledged size and without one. -/
theorem compress_decompress_roundtrip {σ : Type} (Z : Zstd)
    (dstep : DStepFn σ) (dstInit : σ) (hZ : ZstdRoundTrip Z) (b : List Nat)
    (level : Option Nat) (dict : Option Nat) (p : Option Nat)
    (hp : p = none ∨ p = some b.length) :
    ∃ compressed, vibe_zstd_cctx_compress Z b level dict p = .ok compressed ∧
      (vibe_zstd_dctx_decompress Z dstep dstInit compressed dict none 0 0).1 =
        .ok b := by
  obtain ⟨-, hpl, hcc, hcd⟩ := hZ
  have hpledge : (match p with
      | some q => Z.setPledgedSrcSize q
      | none => .ok ()) = Except.ok () := by
    cases p <;> simp [hpl]
  have main : ∀ out, out ≠ [] → isSkippableFrame out = false →
      Z.getFrameContentSize out = .known b.length →
      (match dict with
       | some d => Z.decompressUsingDDict d b.length out
       | none => Z.decompressDCtx b.length out) = .ok b →
      (vibe_zstd_dctx_decompress Z dstep dstInit out dict none 0 0).1 =
        .ok b := by
    intro out hne hnskip hfcs hdec
    have hskip : skip_skippable_loop Z.findNonSkippableFrameSize
        (out.length + 1) out 0 = .ok 0 :=
      skip_loop_nonskippable _ _ _ hnskip (by omega)
    have hlen : 0 < out.length := List.length_pos.mpr hne
    unfold vibe_zstd_dctx_decompress
    rw [hskip]
    simp only []
    rw [if_neg (by omega), List.drop_zero, hfcs]
    rw [if_neg (by simp), if_neg (by simp)]
    cases dict with
    | none =>
      simp only [] at hdec
      simp only []
      rw [hdec]
    | some d =>
      simp only [] at hdec
      simp only []
      rw [hdec]
  cases dict with
  | none =>
    obtain ⟨out, hcomp, hne, hnskip, hfcs, hdec⟩ :=
      hcc p (level.getD Z.defaultCLevel) b hp
    refine ⟨out, ?_, main out hne hnskip hfcs hdec⟩
    unfold vibe_zstd_cctx_compress
    rw [hpledge]
    simp only []
    rw [hcomp]
  | some d =>
    obtain ⟨out, hcomp, hne, hnskip, hfcs, hdec⟩ := hcd p d b hp
    refine ⟨out, ?_, main out hne hnskip hfcs hdec⟩
    unfold vibe_zstd_cctx_compress
    rw [hpledge]
    simp only []
    rw [hcomp]

/-- C1 witness at a concrete input over the reference codec, exercising
all four dictionary/pledge combinations. -/
theorem compress_decompress_roundtrip_witness :
    (∃ compressed,
      vibe_zstd_cctx_compress toyZstd [1, 2, 3] none none none =
        .ok compressed ∧
      (vibe_zstd_dctx_decompress toyZstd toyDStep DSt.tag compressed none
        none 0 0).1 = .ok [1, 2, 3]) ∧
    (∃ compressed,
      vibe_zstd_cctx_compress toyZstd [1, 2, 3] none (some 5) none =
        .ok compressed ∧
      (vibe_zstd_dctx_decompress toyZstd toyDStep DSt.tag compressed (some 5)
        none 0 0).1 = .ok [1, 2, 3]) ∧
    (∃ compressed,
      vibe_zstd_cctx_compress toyZstd [1, 2, 3] none none (some 3) =
        .ok compressed ∧
      (vibe_zstd_dctx_decompress toyZstd toyDStep DSt.tag compressed none
        none 0 0).1 = .ok [1, 2, 3]) ∧
    (∃ compressed,
      vibe_zstd_cctx_compress toyZstd [1, 2, 3] none (some 5) (some 3) =
        .ok compressed ∧
      (vibe_zstd_dctx_decompress toyZstd toyDStep DSt.tag compressed (some 5)
        none 0 0).1 = .ok [1, 2, 3]) :=
  ⟨compress_decompress_roundtrip toyZstd toyDStep DSt.tag toyZstd_roundtrip
      [1, 2, 3] none none none (Or.inl rfl),
   compress_decompress_roundtrip toyZstd toyDStep DSt.tag toyZstd_roundtrip
      [1, 2, 3] none (some 5) none (Or.inl rfl),
   compress_decompress_roundtrip toyZstd toyDStep DSt.tag toyZstd_roundtrip
      [1, 2, 3] none none (some 3) (Or.inr rfl),
   compress_decompress_roundtrip toyZstd toyDStep DSt.tag toyZstd_roundtrip
      [1, 2, 3] none (some 5) (some 3) (Or.inr rfl)⟩

/-- C9: when one-shot decompress takes the unknown-content-size streaming
path, its entire outcome, result and engine-call trace alike, is identical
with and without a supplied dictionary: the path never references the
dictionary argument. -/
theorem decompress_unknown_ignores_dict {σ : Type} (Z : Zstd)
    (dstep : DStepFn σ) (dstInit : σ) (data : List Nat) (off d : Nat)
    (initial_capacity_arg : Option Nat) (instanceCap classCap : Nat)
    (hskip : skip_skippable_loop Z.findNonSkippableFrameSize
      (data.length + 1) data 0 = .ok off)
    (hoff : off < data.length)
    (hfcs : Z.getFrameContentSize (data.drop off) = .unknown) :
    vibe_zstd_dctx_decompress Z dstep dstInit data (some d)
        initial_capacity_arg instanceCap classCap =
      vibe_zstd_dctx_decompress Z dstep dstInit data none
        initial_capacity_arg instanceCap classCap := by
  unfold vibe_zstd_dctx_decompress
  rw [hskip]
  simp only []
  rw [if_neg (by omega), hfcs]
  rw [if_neg (show ¬ data.length ≤ off from by omega)]

/-- C9 witness: a concrete unknown-size frame of the reference codec. -/
theorem decompress_unknown_ignores_dict_witness :
    vibe_zstd_dctx_decompress toyZstd toyDStep DSt.tag [8, 8, 8, 8] (some 5)
        none 0 0 =
      vibe_zstd_dctx_decompress toyZstd toyDStep DSt.tag [8, 8, 8, 8] none
        none 0 0 :=
  decompress_unknown_ignores_dict toyZstd toyDStep DSt.tag [8, 8, 8, 8] 0 5
    none 0 0 rfl (by decide) rfl

/-- C8: the reader's end-of-stream state is terminal and sticky.  Once the
eof flag is set, `read` returns the end-of-stream marker with the state
unchanged: in particular the engine-invocation and source-read counters are
untouched, so neither the engine nor the byte source is invoked; and `eof?`
reports true. -/
theorem reader_eof_sticky {σ : Type} (dstep : DStepFn σ)
    (inBufferSize initial_chunk_size dStreamOutSize : Nat)
    (size_arg : Option Nat) (st : ReaderSt σ) (h : st.eof = true) :
    vibe_zstd_reader_read dstep inBufferSize initial_chunk_size
        dStreamOutSize size_arg st = .ok (none, st) ∧
    vibe_zstd_reader_eof st = true := by
  constructor
  · unfold vibe_zstd_reader_read
    rw [if_pos h]
  · exact h

/-- C8 witness: a concrete exhausted reader state with pending input and
source bytes still present. -/
theorem reader_eof_sticky_witness :
    vibe_zstd_reader_read toyDStep 4 0 1 (some 3)
        { dst := DSt.tag, win := [1], winPos := 0, source := [2, 3]
          srcPos := 0, eof := true, engineCalls := 0, sourceReads := 0 } =
      .ok (none,
        { dst := DSt.tag, win := [1], winPos := 0, source := [2, 3]
          srcPos := 0, eof := true, engineCalls := 0, sourceReads := 0 }) ∧
    vibe_zstd_reader_eof
        { dst := DSt.tag, win := [1], winPos := 0, source := [2, 3]
          srcPos := 0, eof := true, engineCalls := 0, sourceReads := 0 } =
      true :=
  reader_eof_sticky toyDStep 4 0 1 (some 3) _ rfl

theorem tenc_ne_nil (r : List Nat) : tenc r ≠ [] := by
  cases r <;> simp [tenc]

theorem growCapAux_spec : ∀ (f cap needed : Nat), 1 ≤ cap →
    needed ≤ cap * 2 ^ f →
    needed ≤ growCapAux f cap needed ∧
    (∃ k, growCapAux f cap needed = cap * 2 ^ k) ∧
    (growCapAux f cap needed = cap ∨ growCapAux f cap needed < 2 * needed) := by
  intro f
  induction f with
  | zero =>
    intro cap needed h1 h2
    rw [pow_zero, mul_one] at h2
    unfold growCapAux
    exact ⟨h2, ⟨0, by rw [pow_zero, mul_one]⟩, Or.inl rfl⟩
  | succ f ih =>
    intro cap needed h1 h2
    unfold growCapAux
    by_cases hc : cap < needed
    · rw [if_pos hc]
      have h2' : needed ≤ cap * 2 * 2 ^ f := by
        have : cap * 2 * 2 ^ f = cap * 2 ^ (f + 1) := by ring
        rw [this]; exact h2
      obtain ⟨ha, ⟨k, hk⟩, hd⟩ := ih (cap * 2) needed (by omega) h2'
      refine ⟨ha, ⟨k + 1, ?_⟩, Or.inr ?_⟩
      · rw [hk]; ring
      · rcases hd with h | h
        · rw [h]; omega
        · exact h
    · rw [if_neg hc]
      exact ⟨by omega, ⟨0, by rw [pow_zero, mul_one]⟩, Or.inl rfl⟩

theorem growCap_spec (cap needed : Nat) (h : 1 ≤ cap) :
    needed ≤ growCap cap needed ∧
    (∃ k, growCap cap needed = cap * 2 ^ k) ∧
    (growCap cap needed = cap ∨ growCap cap needed < 2 * needed) := by
  apply growCapAux_spec needed cap needed h
  calc needed ≤ 2 ^ needed := Nat.le_of_lt (Nat.lt_two_pow needed)
    _ ≤ cap * 2 ^ needed := Nat.le_mul_of_pos_left _ h

theorem toyDStepCore_spec :
    ∀ (w : List Nat) (d : DSt) (r t : List Nat) (space : Nat),
    DecRepr d (w ++ t) r →
    ∃ k c ret d',
      toyDStepCore d w space = (r.take k, c, ret, d') ∧
      k ≤ space ∧ k ≤ r.length ∧ c ≤ w.length ∧
      DecRepr d' (w.drop c ++ t) (r.drop k) ∧
      (ret = 0 ↔ d' = .done) ∧
      (d' ≠ .done → c = w.length ∨ k = space) ∧
      (w ≠ [] → d ≠ .done → 0 < space → 0 < c) := by
  intro w
  induction w with
  | nil =>
    intro d r t space h
    cases d with
    | done =>
      simp only [DecRepr, List.nil_append] at h
      obtain ⟨hr, ht⟩ := h
      subst hr; subst ht
      refine ⟨0, 0, 0, .done, rfl, Nat.zero_le _, Nat.zero_le _, Nat.zero_le _,
        by simp [DecRepr], by simp, fun h' => Or.inl rfl,
        fun h' => absurd rfl h'⟩
    | tag =>
      simp only [DecRepr, List.nil_append] at h
      refine ⟨0, 0, 1, .tag, by simp [toyDStepCore], Nat.zero_le _,
        Nat.zero_le _, Nat.zero_le _, ?_, by simp, fun _ => Or.inl rfl,
        fun h' => absurd rfl h'⟩
      simp only [DecRepr, List.drop_zero, List.nil_append]
      exact h
    | lit =>
      simp only [DecRepr, List.nil_append] at h
      refine ⟨0, 0, 1, .lit, by simp [toyDStepCore], Nat.zero_le _,
        Nat.zero_le _, Nat.zero_le _, ?_, by simp, fun _ => Or.inl rfl,
        fun h' => absurd rfl h'⟩
      simp only [DecRepr, List.drop_zero, List.nil_append]
      exact h
  | cons a w ih =>
    intro d r t space h
    cases d with
    | done =>
      simp only [DecRepr] at h
      exact absurd h.2 (by simp)
    | tag =>
      simp only [DecRepr, List.cons_append] at h
      cases r with
      | nil =>
        rw [tenc] at h
        injection h with h1 h2
        subst h1
        refine ⟨0, 1, 0, .done, by simp [toyDStepCore], Nat.zero_le _,
          Nat.zero_le _, by simp, ?_, by simp, fun h' => absurd rfl h',
          fun _ _ _ => by omega⟩
        simp only [DecRepr, List.drop_succ_cons, List.drop_zero]
        exact ⟨by simp, h2⟩
      | cons x r2 =>
        rw [tenc] at h
        injection h with h1 h2
        subst h1
        have hrep : DecRepr .lit (w ++ t) (x :: r2) := by
          simp only [DecRepr]
          exact ⟨x, r2, rfl, h2⟩
        obtain ⟨k, c, ret, d', heq, hk, hkr, hc, hrep', hiff, hmax, hprog⟩ :=
          ih .lit (x :: r2) t space hrep
        refine ⟨k, c + 1, ret, d', ?_, hk, hkr, by simpa using hc, ?_, hiff,
          ?_, fun _ _ _ => by omega⟩
        · show toyDStepCore .tag (1 :: w) space = _
          simp only [toyDStepCore]
          rw [if_neg (by omega), heq]
        · simp only [List.drop_succ_cons]
          exact hrep'
        · intro hd'
          rcases hmax hd' with h | h
          · left; simp [h]
          · right; exact h
    | lit =>
      simp only [DecRepr, List.cons_append] at h
      obtain ⟨x, r2, hr, hs⟩ := h
      injection hs with h1 h2
      subst h1; subst hr
      cases space with
      | zero =>
        refine ⟨0, 0, 1, .lit, by simp [toyDStepCore], Nat.le_refl _,
          Nat.zero_le _, Nat.zero_le _, ?_, by simp, fun _ => Or.inr rfl,
          fun _ _ h0 => by omega⟩
        simp only [DecRepr, List.drop_zero, List.cons_append]
        exact ⟨a, r2, rfl, by rw [h2]⟩
      | succ s =>
        have hrep : DecRepr .tag (w ++ t) r2 := by
          simp only [DecRepr]
          exact h2
        obtain ⟨k, c, ret, d', heq, hk, hkr, hc, hrep', hiff, hmax, hprog⟩ :=
          ih .tag r2 t s hrep
        refine ⟨k + 1, c + 1, ret, d', ?_, by omega, by simpa using hkr,
          by simpa using hc, ?_, hiff, ?_, fun _ _ _ => by omega⟩
        · show toyDStepCore .lit (a :: w) (s + 1) = _
          simp only [toyDStepCore]
          rw [if_neg (by omega)]
          have hsub : s + 1 - 1 = s := by omega
          rw [hsub, heq]
          simp [List.take_succ_cons]
        · simp only [List.drop_succ_cons]
          exact hrep'
        · intro hd'
          rcases hmax hd' with h | h
          · left; simp [h]
          · right; omega

theorem dctx_unknown_loop_toy :
    ∀ (fuel : Nat) (d : DSt) (src : List Nat) (pos : Nat)
      (resultAcc b : List Nat) (cap cap0 chunk : Nat) (trace : List EngCall),
    1 ≤ chunk → 1 ≤ cap0 → 1 ≤ cap →
    DecRepr d (src.drop pos) b →
    pos ≤ src.length →
    src.length - pos < fuel →
    (∃ k, cap = cap0 * 2 ^ k) →
    resultAcc.length ≤ cap →
    (cap = cap0 ∨ cap < 2 * (resultAcc.length + b.length)) →
    ∃ capF tr,
      dctx_unknown_loop toyDStep chunk fuel d src pos resultAcc cap trace =
        (.ok (resultAcc ++ b, capF), tr) ∧
      (∃ k, capF = cap0 * 2 ^ k) ∧
      resultAcc.length + b.length ≤ capF ∧
      (capF = cap0 ∨ capF < 2 * (resultAcc.length + b.length)) := by
  intro fuel
  induction fuel with
  | zero =>
    intro d src pos resultAcc b cap cap0 chunk trace _ _ _ _ _ hfuel _ _ _
    omega
  | succ f ih =>
    intro d src pos resultAcc b cap cap0 chunk trace hchunk hcap0 hcap hrep
      hpos hfuel hpow hfits hgrow
    by_cases hlt : pos < src.length
    · have hw : src.drop pos ≠ [] := by
        intro hnil
        have := List.length_drop pos src
        rw [hnil] at this
        simp at this
        omega
      have hd : d ≠ .done := by
        intro hdd
        subst hdd
        simp only [DecRepr] at hrep
        exact hw hrep.2
      have hrep2 : DecRepr d (src.drop pos ++ []) b := by
        rwa [List.append_nil]
      obtain ⟨k, c, ret, d', heq, hk, hkr, hc, hrep', hiff, hmax, hprog⟩ :=
        toyDStepCore_spec (src.drop pos) d b [] chunk hrep2
      have hcpos : 0 < c := hprog hw hd hchunk
      have hclen : c ≤ src.length - pos := by
        have := List.length_drop pos src
        omega
      have hstep : toyDStep d (src.drop pos) chunk =
          { out := b.take k, consumed := c, ret := .ok ret, st := d' } := by
        unfold toyDStep
        rw [heq]
      have hrep'' : DecRepr d' (src.drop (pos + c)) (b.drop k) := by
        rw [List.append_nil] at hrep'
        rwa [List.drop_drop] at hrep'
      unfold dctx_unknown_loop
      rw [if_pos hlt, hstep]
      simp only []
      have houtlen : (b.take k).length = k := by
        rw [List.length_take]
        omega
      by_cases hkpos : 0 < k
      · rw [if_pos (by rw [houtlen]; omega)]
        have hneed : resultAcc.length + (b.take k).length =
            resultAcc.length + k := by rw [houtlen]
        set needed := resultAcc.length + (b.take k).length with hneeddef
        have hneed' : needed = resultAcc.length + k := hneed
        have hcap' : ∀ cap2, cap2 = (if cap < needed then growCap cap needed
              else cap) →
            needed ≤ cap2 ∧ 1 ≤ cap2 ∧ (∃ j, cap2 = cap0 * 2 ^ j) ∧
            (cap2 = cap0 ∨ cap2 < 2 * (needed + (b.drop k).length)) := by
          intro cap2 hdef
          by_cases hg : cap < needed
          · rw [if_pos hg] at hdef
            obtain ⟨hge, ⟨j, hj⟩, hsmall⟩ := growCap_spec cap needed hcap
            obtain ⟨j0, hj0⟩ := hpow
            refine ⟨by omega, by omega, ⟨j0 + j, ?_⟩, Or.inr ?_⟩
            · rw [hdef, hj, hj0, pow_add]; ring
            · rcases hsmall with hsame | hsm
              · omega
              · omega
          · rw [if_neg hg] at hdef
            subst hdef
            refine ⟨by omega, hcap, hpow, ?_⟩
            rcases hgrow with hsame | hsm
            · exact Or.inl hsame
            · refine Or.inr ?_
              have hbl : (b.drop k).length = b.length - k := by
                rw [List.length_drop]
              omega
        obtain ⟨hge2, hpos2, hpow2, hgrow2⟩ :=
          hcap' (if cap < needed then growCap cap needed else cap) rfl
        have hlen_eq : (resultAcc ++ b.take k).length = needed := by
          rw [List.length_append]
        have hgrow2' :
            (if cap < needed then growCap cap needed else cap) = cap0 ∨
            (if cap < needed then growCap cap needed else cap) <
              2 * ((resultAcc ++ b.take k).length + (b.drop k).length) := by
          rcases hgrow2 with h | h
          · exact Or.inl h
          · right
            rw [hlen_eq]
            exact h
        obtain ⟨capF, tr, hres, hpowF, hfitF, hgrowF⟩ :=
          ih d' src (pos + c) (resultAcc ++ b.take k) (b.drop k)
            (if cap < needed then growCap cap needed else cap) cap0 chunk
            (trace ++ [EngCall.streamStep]) hchunk hcap0 hpos2 hrep''
            (by omega) (by omega) hpow2
            (by rw [hlen_eq]; omega) hgrow2'
        refine ⟨capF, tr, ?_, hpowF, ?_, ?_⟩
        · rw [hres, List.append_assoc, List.take_append_drop]
        · have h1 : (resultAcc ++ b.take k).length + (b.drop k).length =
              resultAcc.length + b.length := by
            rw [List.length_append, houtlen, List.length_drop]
            omega
          omega
        · have h1 : (resultAcc ++ b.take k).length + (b.drop k).length =
              resultAcc.length + b.length := by
            rw [List.length_append, houtlen, List.length_drop]
            omega
          omega
      · have hk0 : k = 0 := by omega
        subst hk0
        rw [if_neg (by rw [houtlen]; omega)]
        have hrep3 : DecRepr d' (src.drop (pos + c)) b := by
          simpa using hrep''
        obtain ⟨capF, tr, hres, hpowF, hfitF, hgrowF⟩ :=
          ih d' src (pos + c) resultAcc b cap cap0 chunk
            (trace ++ [EngCall.streamStep]) hchunk hcap0 hcap hrep3
            (by omega) (by omega) hpow hfits hgrow
        exact ⟨capF, tr, hres, hpowF, hfitF, hgrowF⟩
    · have hnil : src.drop pos = [] := by
        apply List.drop_eq_nil_of_le
        omega
      have hb : b = [] := by
        cases d with
        | tag =>
          simp only [DecRepr] at hrep
          rw [hnil] at hrep
          exact absurd hrep.symm (tenc_ne_nil b)
        | lit =>
          simp only [DecRepr] at hrep
          obtain ⟨x, r2, _, hs⟩ := hrep
          rw [hnil] at hs
          exact absurd hs.symm (by simp)
        | done =>
          simp only [DecRepr] at hrep
          exact hrep.1
      subst hb
      unfold dctx_unknown_loop
      rw [if_neg hlt]
      exact ⟨cap, trace, by rw [List.append_nil], hpow, by simpa using hfits,
        by simpa using hgrow⟩

/-- C3: when decompress meets a frame of unknown content size it runs the
streaming loop whose result buffer starts at the capacity resolved by the
per-call / per-session / process-wide / codec-suggested fallback chain
(first conjunct: the code's chain equals the specification's chain; second
conjunct: decompress hands exactly the resolved capacity to the loop); and
for every positive initial capacity, including ones smaller than the
decompressed size, the loop returns the complete output trimmed to its
exact length, with a final capacity obtained from the initial one by
doubling only when an append would overflow it (third conjunct, over the
reference stream codec). -/
theorem decompress_unknown_growth {σ : Type} (Z : Zstd) (dstep : DStepFn σ)
    (dstInit : σ) (data : List Nat) (off : Nat)
    (dict initial_capacity_arg : Option Nat) (instanceCap classCap : Nat)
    (b : List Nat) (cap chunk : Nat)
    (hskip : skip_skippable_loop Z.findNonSkippableFrameSize
      (data.length + 1) data 0 = .ok off)
    (hoff : off < data.length)
    (hfcs : Z.getFrameContentSize (data.drop off) = .unknown)
    (hicap : initial_capacity_arg ≠ some 0)
    (hchunk : 1 ≤ chunk) (hcap : 1 ≤ cap) :
    (∀ (pc i cl : Option Nat) (dflt : Nat), pc ≠ some 0 → i ≠ some 0 →
      cl ≠ some 0 →
      resolve_initial_capacity (pc.getD 0) (i.getD 0) (cl.getD 0) dflt =
        specCapacityChain pc i cl dflt) ∧
    (vibe_zstd_dctx_decompress Z dstep dstInit data dict initial_capacity_arg
        instanceCap classCap).1 =
      (match (dctx_unknown_loop dstep Z.dStreamOutSize
          ((data.drop off).length + 1) dstInit (data.drop off) 0 []
          (resolve_initial_capacity (initial_capacity_arg.getD 0) instanceCap
            classCap Z.dStreamOutSize) []).1 with
       | .error e => .error e
       | .ok (result, _) => .ok result) ∧
    (∃ capF tr,
      dctx_unknown_loop toyDStep chunk ((tenc b).length + 1) DSt.tag (tenc b)
          0 [] cap [] = (.ok (b, capF), tr) ∧
      (∃ k, capF = cap * 2 ^ k) ∧ b.length ≤ capF ∧
      (capF = cap ∨ capF < 2 * b.length)) := by
  refine ⟨?_, ?_, ?_⟩
  · intro pc i cl dflt h1 h2 h3
    cases pc with
    | some k =>
      have hk : k ≠ 0 := fun h => h1 (by rw [h])
      simp [resolve_initial_capacity, specCapacityChain, hk]
    | none =>
      cases i with
      | some k =>
        have hk : k ≠ 0 := fun h => h2 (by rw [h])
        simp [resolve_initial_capacity, specCapacityChain, hk]
      | none =>
        cases cl with
        | some k =>
          have hk : k ≠ 0 := fun h => h3 (by rw [h])
          simp [resolve_initial_capacity, specCapacityChain, hk]
        | none => simp [resolve_initial_capacity, specCapacityChain]
  · unfold vibe_zstd_dctx_decompress
    rw [hskip]
    simp only []
    rw [if_neg (show ¬ data.length ≤ off from by omega), hfcs,
      if_neg (show ¬ (FCS.unknown = FCS.error) from by simp),
      if_neg hicap]
    simp only []
    rcases hloop : dctx_unknown_loop dstep Z.dStreamOutSize
        ((data.drop off).length + 1) dstInit (data.drop off) 0 []
        (resolve_initial_capacity (initial_capacity_arg.getD 0) instanceCap
          classCap Z.dStreamOutSize) [] with ⟨res, tr⟩
    cases res with
    | error e => simp
    | ok rc =>
      rcases rc with ⟨result, capR⟩
      simp
  · have hrep : DecRepr DSt.tag ((tenc b).drop 0) b := by
      simp only [DecRepr, List.drop_zero]
    obtain ⟨capF, tr, hres, hpowF, hfitF, hgrowF⟩ :=
      dctx_unknown_loop_toy ((tenc b).length + 1) DSt.tag (tenc b) 0 [] b cap
        cap chunk [] hchunk hcap hcap hrep (Nat.zero_le _) (by omega)
        ⟨0, by rw [pow_zero, mul_one]⟩ (Nat.zero_le _) (Or.inl rfl)
    refine ⟨capF, tr, by simpa using hres, hpowF, by simpa using hfitF,
      by simpa using hgrowF⟩

/-- C3 witness: concrete unknown-size input, payload, capacity 1 smaller
than the decompressed size, and chunk size 4. -/
theorem decompress_unknown_growth_witness :
    (∀ (pc i cl : Option Nat) (dflt : Nat), pc ≠ some 0 → i ≠ some 0 →
      cl ≠ some 0 →
      resolve_initial_capacity (pc.getD 0) (i.getD 0) (cl.getD 0) dflt =
        specCapacityChain pc i cl dflt) ∧
    (vibe_zstd_dctx_decompress toyZstd toyDStep DSt.tag [8, 8, 8, 8] none
        none 0 0).1 =
      (match (dctx_unknown_loop toyDStep toyZstd.dStreamOutSize
          ((([8, 8, 8, 8] : List Nat).drop 0).length + 1) DSt.tag
          (([8, 8, 8, 8] : List Nat).drop 0) 0 []
          (resolve_initial_capacity ((none : Option Nat).getD 0) 0 0
            toyZstd.dStreamOutSize) []).1 with
       | .error e => .error e
       | .ok (result, _) => .ok result) ∧
    (∃ capF tr,
      dctx_unknown_loop toyDStep 4 ((tenc [1, 2]).length + 1) DSt.tag
          (tenc [1, 2]) 0 [] 1 [] = (.ok ([1, 2], capF), tr) ∧
      (∃ k, capF = 1 * 2 ^ k) ∧ ([1, 2] : List Nat).length ≤ capF ∧
      (capF = 1 ∨ capF < 2 * ([1, 2] : List Nat).length)) :=
  decompress_unknown_growth toyZstd toyDStep DSt.tag [8, 8, 8, 8] 0 none none
    0 0 [1, 2] 1 4 rfl (by decide) rfl (by decide) (by decide) (by decide)

theorem tenc_length (r : List Nat) : (tenc r).length = 2 * r.length + 1 := by
  induction r with
  | nil => rfl
  | cons x r ih => simp [tenc, ih]; omega

theorem writer_write_toy (obs : Nat) (wst : WriterSt CSt) (data : List Nat) :
    vibe_zstd_writer_write toyCStep obs wst data =
      .ok { cst := { acc := wst.cst.acc ++ data, pending := wst.cst.pending }
            sink := wst.sink } := by
  unfold vibe_zstd_writer_write
  cases data with
  | nil =>
    unfold vibe_zstd_writer_write_loop
    rw [if_neg (by simp)]
    simp
  | cons a rest =>
    unfold vibe_zstd_writer_write_loop
    rw [if_pos (by simp)]
    simp only [toyCStep, List.drop_zero]
    unfold vibe_zstd_writer_write_loop
    rw [if_neg (by simp)]
    simp

theorem writer_write_chunks_toy (obs : Nat) (chunks : List (List Nat)) :
    ∀ wst : WriterSt CSt,
    writer_write_chunks toyCStep obs chunks wst =
      .ok { cst := { acc := wst.cst.acc ++ chunks.flatten
                     pending := wst.cst.pending }
            sink := wst.sink } := by
  induction chunks with
  | nil => intro wst; simp [writer_write_chunks]
  | cons d ds ih =>
    intro wst
    unfold writer_write_chunks
    rw [writer_write_toy]
    simp only []
    rw [ih]
    simp [List.append_assoc]

theorem chunksOfAux_flatten (c : Nat) (hc : 1 ≤ c) :
    ∀ (f : Nat) (l : List Nat), l.length ≤ f →
    (chunksOfAux c f l).flatten = l := by
  intro f
  induction f with
  | zero =>
    intro l hl
    have : l = [] := List.length_eq_zero.mp (by omega)
    subst this
    rfl
  | succ f ih =>
    intro l hl
    unfold chunksOfAux
    by_cases hnil : l.length = 0
    · rw [if_pos hnil]
      have : l = [] := List.length_eq_zero.mp hnil
      subst this
      rfl
    · rw [if_neg hnil]
      have hrec := ih (l.drop c) (by rw [List.length_drop]; omega)
      simp only [List.flatten_cons, hrec, List.take_append_drop]

theorem chunksOf_flatten (c : Nat) (hc : 1 ≤ c) (l : List Nat) :
    (chunksOf c l).flatten = l :=
  chunksOfAux_flatten c hc l.length l (Nat.le_refl _)

theorem writer_end_loop_toy (obs : Nat) (hobs : 1 ≤ obs) :
    ∀ (fuel : Nat) (wst : WriterSt CSt) (p : List Nat),
    p = wst.cst.pending.getD (tenc wst.cst.acc) →
    p.length < fuel →
    vibe_zstd_writer_end_loop toyCStep obs fuel wst =
      .ok { cst := { acc := wst.cst.acc, pending := some [] }
            sink := wst.sink ++ p } := by
  intro fuel
  induction fuel with
  | zero => intro wst p hp hf; omega
  | succ f ih =>
    intro wst p hp hf
    unfold vibe_zstd_writer_end_loop
    simp only [toyCStep, ← hp]
    by_cases hpe : p = []
    · subst hpe
      simp
    · have hplen : 0 < p.length := List.length_pos.mpr hpe
      have htake : 0 < (p.take obs).length := by
        rw [List.length_take]
        omega
      rw [if_pos htake]
      by_cases hrem : 0 < (p.drop obs).length
      · rw [if_pos hrem]
        have hrec := ih { cst := { acc := wst.cst.acc
                                   pending := some (p.drop obs) }
                          sink := wst.sink ++ p.take obs } (p.drop obs) rfl
          (by rw [List.length_drop]; omega)
        rw [hrec]
        simp [List.append_assoc]
      · rw [if_neg hrem]
        have hdrop : p.drop obs = [] := by
          cases h : p.drop obs with
          | nil => rfl
          | cons y ys => rw [h] at hrem; simp at hrem
        have htk : p.take obs = p := by
          apply List.take_of_length_le
          have := List.length_drop obs p
          rw [hdrop] at this
          simp at this
          omega
        rw [hdrop, htk]

theorem writer_pipeline_toy (obs : Nat) (b : List Nat) (c : Nat)
    (hobs : 1 ≤ obs) (hc : 1 ≤ c) :
    writer_pipeline obs b c =
      .ok { cst := { acc := b, pending := some [] }, sink := tenc b } := by
  unfold writer_pipeline
  rw [writer_write_chunks_toy]
  simp only [initWriter, initCSt]
  rw [List.nil_append, chunksOf_flatten c hc b]
  unfold vibe_zstd_writer_finish
  rw [writer_end_loop_toy obs hobs (2 * b.length + 2)
    { cst := { acc := b, pending := none }, sink := [] } (tenc b) rfl
    (by rw [tenc_length]; omega)]
  rw [List.nil_append]

theorem reader_refill_ready {σ : Type} (ibs : Nat) (hibs : 1 ≤ ibs)
    (st : ReaderSt σ) (acc : List Nat) (made : Bool)
    (hne : readerPend st ≠ []) :
    ∃ st1, reader_refill ibs st acc made = Sum.inr st1 ∧
      st1.dst = st.dst ∧ st1.eof = st.eof ∧
      readerPend st1 = readerPend st ∧
      st1.win.drop st1.winPos ≠ [] := by
  unfold reader_refill
  by_cases hwin : st.win.length ≤ st.winPos
  · have hwinrem : st.win.drop st.winPos = [] := List.drop_eq_nil_of_le hwin
    have hsrcne : st.source.drop st.srcPos ≠ [] := by
      intro h
      apply hne
      simp [readerPend, hwinrem, h]
    have hsrclt : st.srcPos < st.source.length := by
      by_contra hh
      exact hsrcne (List.drop_eq_nil_of_le (by omega))
    have hio : ioRead st.source st.srcPos ibs =
        some ((st.source.drop st.srcPos).take ibs) := by
      unfold ioRead
      rw [if_neg (by omega)]
    rw [if_pos hwin, hio]
    have hsrclen : 0 < (st.source.drop st.srcPos).length :=
      List.length_pos.mpr hsrcne
    refine ⟨_, rfl, rfl, rfl, ?_, ?_⟩
    · show ((st.source.drop st.srcPos).take ibs).drop 0 ++
        st.source.drop (st.srcPos + ((st.source.drop st.srcPos).take ibs).length)
        = readerPend st
      rw [List.drop_zero]
      have h2 : st.source.drop
          (st.srcPos + ((st.source.drop st.srcPos).take ibs).length) =
          (st.source.drop st.srcPos).drop
            ((st.source.drop st.srcPos).take ibs).length := by
        rw [List.drop_drop]
      rw [h2, List.length_take]
      have h3 : (st.source.drop st.srcPos).drop
          (min ibs (st.source.drop st.srcPos).length) =
          (st.source.drop st.srcPos).drop ibs := by
        rcases Nat.le_total ibs (st.source.drop st.srcPos).length with h | h
        · rw [Nat.min_eq_left h]
        · rw [Nat.min_eq_right h]
          rw [List.drop_eq_nil_of_le (Nat.le_refl _),
            List.drop_eq_nil_of_le h]
      rw [h3]
      have h4 : (st.source.drop st.srcPos).take (min ibs
          (st.source.drop st.srcPos).length) =
          (st.source.drop st.srcPos).take ibs := by
        rcases Nat.le_total ibs (st.source.drop st.srcPos).length with h | h
        · rw [Nat.min_eq_left h]
        · rw [Nat.min_eq_right h, List.take_length,
            List.take_of_length_le h]
      rw [List.take_append_drop]
      simp [readerPend, hwinrem]
    · show ((st.source.drop st.srcPos).take ibs).drop 0 ≠ []
      rw [List.drop_zero]
      apply List.ne_nil_of_length_pos
      rw [List.length_take]
      omega
  · rw [if_neg hwin]
    refine ⟨st, rfl, rfl, rfl, rfl, ?_⟩
    intro h
    exact hwin (List.drop_eq_nil_iff.mp h)

theorem reader_refill_exhausted {σ : Type} (ibs : Nat) (st : ReaderSt σ)
    (acc : List Nat) (made : Bool) (hnil : readerPend st = []) :
    reader_refill ibs st acc made =
      Sum.inl (reader_finish acc
        { st with eof := true, sourceReads := st.sourceReads + 1 }) := by
  unfold readerPend at hnil
  obtain ⟨h1, h2⟩ := List.append_eq_nil.mp hnil
  have hwin : st.win.length ≤ st.winPos := List.drop_eq_nil_iff.mp h1
  have hsrc : st.source.length ≤ st.srcPos := List.drop_eq_nil_iff.mp h2
  have hio : ioRead st.source st.srcPos ibs = none := by
    unfold ioRead
    rw [if_pos hsrc]
  unfold reader_refill
  rw [if_pos hwin, hio]
  simp only []
  by_cases hc : acc.length = 0 ∧ made = false
  · rw [if_pos hc]
    unfold reader_finish
    rw [if_pos hc.1]
  · rw [if_neg hc]

theorem reader_loop_toy (ibs req : Nat) (hibs : 1 ≤ ibs) (hreq : 1 ≤ req) :
    ∀ (fuel : Nat) (b : List Nat) (e : Nat) (st : ReaderSt DSt)
      (acc : List Nat) (made : Bool),
    ReaderInv b e st →
    (readerPend st).length < fuel →
    acc.length ≤ req →
    ∃ st',
      vibe_zstd_reader_loop toyDStep ibs req fuel st acc made =
        .ok ((if acc ++ (b.drop e).take (req - acc.length) = []
              then none
              else some (acc ++ (b.drop e).take (req - acc.length))), st') ∧
      ReaderInvE b (e + min (req - acc.length) (b.length - e)) st' := by
  intro fuel
  induction fuel with
  | zero => intro b e st acc made hinv hfuel hacc; omega
  | succ f ih =>
    intro b e st acc made hinv hfuel hacc
    obtain ⟨he, heof, hrep⟩ := hinv
    have hdl : (b.drop e).length = b.length - e := List.length_drop e b
    unfold vibe_zstd_reader_loop
    by_cases hfull : acc.length < req
    case neg =>
      rw [if_neg hfull]
      have haccne : acc ≠ [] := by
        intro h
        subst h
        simp at hfull
        omega
      have hz : req - acc.length = 0 := by omega
      refine ⟨st, ?_, ?_⟩
      · rw [hz]
        unfold reader_finish
        rw [if_neg (by simpa using haccne)]
        simp [haccne]
      · rw [hz]
        simp only [Nat.zero_min, Nat.add_zero]
        exact Or.inl ⟨he, heof, hrep⟩
    case pos =>
      rw [if_pos hfull]
      have hspace : 1 ≤ req - acc.length := by omega
      by_cases hpend : readerPend st = []
      · rw [reader_refill_exhausted ibs st acc made hpend]
        simp only []
        have hdropnil : b.drop e = [] := by
          rw [hpend] at hrep
          cases hdst : st.dst with
          | tag =>
            rw [hdst] at hrep
            simp only [DecRepr] at hrep
            exact absurd hrep.symm (tenc_ne_nil _)
          | lit =>
            rw [hdst] at hrep
            simp only [DecRepr] at hrep
            obtain ⟨x, r2, _, hs⟩ := hrep
            exact absurd hs.symm (by simp)
          | done =>
            rw [hdst] at hrep
            simp only [DecRepr] at hrep
            exact hrep.1
        have hebl : e = b.length := by
          have := List.drop_eq_nil_iff.mp hdropnil
          omega
        have hmin0 : min (req - acc.length) (b.length - e) = 0 := by
          rw [← hebl]
          simp
        rw [hdropnil]
        by_cases hacc0 : acc = []
        · subst hacc0
          unfold reader_finish
          rw [if_pos (by simp)]
          refine ⟨{ st with eof := true, sourceReads := st.sourceReads + 1 },
            by simp, ?_⟩
          rw [hmin0, Nat.add_zero]
          exact Or.inr ⟨rfl, hebl⟩
        · unfold reader_finish
          rw [if_neg (by simpa using hacc0)]
          refine ⟨{ st with eof := true, sourceReads := st.sourceReads + 1 },
            by simp [hacc0], ?_⟩
          rw [hmin0, Nat.add_zero]
          exact Or.inr ⟨rfl, hebl⟩
      · obtain ⟨st1, hrefill, hdst1, heof1, hpend1, hwinne1⟩ :=
          reader_refill_ready ibs hibs st acc made hpend
        rw [hrefill]
        simp only []
        have hwl : ¬ st1.win.length = 0 := by
          intro h
          exact hwinne1 (List.drop_eq_nil_of_le (by omega))
        rw [if_neg hwl]
        have hwt : st1.win.drop st1.winPos ++ st1.source.drop st1.srcPos =
            readerPend st := by
          rw [← hpend1]
          rfl
        have hrepr : DecRepr st1.dst
            (st1.win.drop st1.winPos ++ st1.source.drop st1.srcPos)
            (b.drop e) := by
          rw [hdst1, hwt]
          exact hrep
        have hdne : st1.dst ≠ DSt.done := by
          intro hd
          rw [hd] at hrepr
          simp only [DecRepr] at hrepr
          exact hwinne1 (List.append_eq_nil.mp hrepr.2).1
        obtain ⟨k, c, ret, d', heq, hk, hkr, hc, hrep', hiff, hmax, hprog⟩ :=
          toyDStepCore_spec (st1.win.drop st1.winPos) st1.dst (b.drop e)
            (st1.source.drop st1.srcPos) (req - acc.length) hrepr
        have hcpos : 0 < c := hprog hwinne1 hdne hspace
        have hstep : toyDStep st1.dst (st1.win.drop st1.winPos)
            (req - acc.length) =
            { out := (b.drop e).take k, consumed := c, ret := .ok ret
              st := d' } := by
          unfold toyDStep
          rw [heq]
        rw [hstep]
        simp only []
        have houtlen : ((b.drop e).take k).length = k := by
          rw [List.length_take]
          omega
        have hpend2 : readerPend
            { st1 with dst := d', winPos := st1.winPos + c
                       engineCalls := st1.engineCalls + 1 } =
            (st1.win.drop st1.winPos).drop c ++ st1.source.drop st1.srcPos := by
          unfold readerPend
          simp only []
          rw [List.drop_drop]
        have hrep2 : DecRepr d'
            (readerPend { st1 with dst := d', winPos := st1.winPos + c
                                   engineCalls := st1.engineCalls + 1 })
            (b.drop (e + k)) := by
          rw [hpend2, ← List.drop_drop]
          exact hrep'
        have hek : e + k ≤ b.length := by omega
        have hinv2 : ReaderInv b (e + k)
            { st1 with dst := d', winPos := st1.winPos + c
                       engineCalls := st1.engineCalls + 1 } := by
          refine ⟨hek, ?_, hrep2⟩
          show st1.eof = false
          rw [heof1]
          exact heof
        by_cases hbreak : req ≤ (acc ++ (b.drop e).take k).length
        · rw [if_pos hbreak]
          have hkfull : k = req - acc.length := by
            rw [List.length_append, houtlen] at hbreak
            omega
          have haccne2 : acc ++ (b.drop e).take k ≠ [] := by
            apply List.ne_nil_of_length_pos
            rw [List.length_append, houtlen]
            omega
          refine ⟨{ st1 with dst := d', winPos := st1.winPos + c
                             engineCalls := st1.engineCalls + 1 }, ?_, ?_⟩
          · unfold reader_finish
            rw [if_neg (show ¬ (acc ++ (b.drop e).take k).length = 0 from
              fun h => haccne2 (List.length_eq_zero.mp h)), hkfull]
            rw [if_neg (by rw [← hkfull]; exact haccne2)]
          · have hminq : min (req - acc.length) (b.length - e) =
                req - acc.length := by
              omega
            rw [hminq, ← hkfull]
            exact Or.inl hinv2
        · rw [if_neg hbreak]
          have hklt : acc.length + k < req := by
            rw [List.length_append, houtlen] at hbreak
            omega
          by_cases hret : ret = 0
          · rw [if_pos hret]
            have hdone : d' = DSt.done := hiff.mp hret
            rw [hdone] at hrep'
            simp only [DecRepr] at hrep'
            have hrk : (b.drop e).drop k = [] := hrep'.1
            have hkbl : e + k = b.length := by
              have h2 := List.drop_eq_nil_iff.mp hrk
              omega
            have hrtake : (b.drop e).take (req - acc.length) =
                (b.drop e).take k := by
              have h1 : (b.drop e).length ≤ k := by omega
              rw [List.take_of_length_le h1,
                List.take_of_length_le (by omega)]
            have hmink : min (req - acc.length) (b.length - e) = k := by
              omega
            rw [hrtake, hmink]
            by_cases hacc2 : acc ++ (b.drop e).take k = []
            · unfold reader_finish
              rw [if_pos (by rw [hacc2]; rfl)]
              refine ⟨{ st1 with dst := d', winPos := st1.winPos + c
                                 engineCalls := st1.engineCalls + 1
                                 eof := true }, by simp [hacc2], ?_⟩
              exact Or.inr ⟨rfl, by omega⟩
            · unfold reader_finish
              rw [if_neg (show ¬ (acc ++ (b.drop e).take k).length = 0 from
                fun h => hacc2 (List.length_eq_zero.mp h))]
              refine ⟨{ st1 with dst := d', winPos := st1.winPos + c
                                 engineCalls := st1.engineCalls + 1
                                 eof := true }, by simp [hacc2], ?_⟩
              exact Or.inr ⟨rfl, by omega⟩
          · rw [if_neg hret]
            have hpendlen : (readerPend
                { st1 with dst := d', winPos := st1.winPos + c
                           engineCalls := st1.engineCalls + 1 }).length < f := by
              rw [hpend2]
              have h1 : (readerPend st).length < f + 1 := hfuel
              have h2 : ((st1.win.drop st1.winPos).drop c).length =
                  (st1.win.drop st1.winPos).length - c := List.length_drop c _
              have h3 : (readerPend st).length =
                  (st1.win.drop st1.winPos).length +
                  (st1.source.drop st1.srcPos).length := by
                rw [← hwt, List.length_append]
              rw [List.length_append]
              omega
            have hacclen2 : (acc ++ (b.drop e).take k).length ≤ req := by
              rw [List.length_append, houtlen]
              omega
            obtain ⟨st', hres, hinvE'⟩ := ih b (e + k)
              { st1 with dst := d', winPos := st1.winPos + c
                         engineCalls := st1.engineCalls + 1 }
              (acc ++ (b.drop e).take k)
              (made || decide (0 < ((b.drop e).take k).length))
              hinv2 hpendlen hacclen2
            rw [hres]
            have hfinal : (acc ++ (b.drop e).take k) ++
                (b.drop (e + k)).take (req - (acc ++ (b.drop e).take k).length)
                = acc ++ (b.drop e).take (req - acc.length) := by
              rw [List.append_assoc]
              congr 1
              have h1 : b.drop (e + k) = (b.drop e).drop k := by
                rw [List.drop_drop]
              have h2 : (acc ++ (b.drop e).take k).length =
                  acc.length + k := by
                rw [List.length_append, houtlen]
              rw [h1, h2]
              have h3 : req - acc.length = k + (req - (acc.length + k)) := by
                omega
              rw [h3, List.take_add]
            have hidx : e + k + min (req - (acc ++ (b.drop e).take k).length)
                (b.length - (e + k)) =
                e + min (req - acc.length) (b.length - e) := by
              rw [List.length_append, houtlen]
              omega
            rw [hfinal] at hres ⊢
            exact ⟨st', rfl, by rwa [hidx] at hinvE'⟩

theorem reader_read_toy (ibs req : Nat) (hibs : 1 ≤ ibs) (hreq : 1 ≤ req)
    (b : List Nat) (e : Nat) (st : ReaderSt DSt)
    (hinvE : ReaderInvE b e st) :
    (e < b.length →
      ∃ st', vibe_zstd_reader_read toyDStep ibs 0 1 (some req) st =
          .ok (some ((b.drop e).take req), st') ∧
        ReaderInvE b (min (e + req) b.length) st') ∧
    (e = b.length →
      ∃ st', vibe_zstd_reader_read toyDStep ibs 0 1 (some req) st =
        .ok (none, st')) := by
  have hfuel : (readerPend st).length <
      (st.win.length - st.winPos) + (st.source.length - st.srcPos) + 2 := by
    unfold readerPend
    rw [List.length_append, List.length_drop, List.length_drop]
    omega
  constructor
  · intro helt
    rcases hinvE with hinv | ⟨heof, hebl⟩
    case left.inr.intro => omega
    obtain ⟨he, heof, hrep⟩ := hinv
    unfold vibe_zstd_reader_read
    rw [if_neg (by simp [heof])]
    simp only [reader_requested_size]
    obtain ⟨st', hres, hinvE'⟩ := reader_loop_toy ibs req hibs hreq
      ((st.win.length - st.winPos) + (st.source.length - st.srcPos) + 2)
      b e st [] false ⟨he, heof, hrep⟩ hfuel (by simp)
    have hne : (b.drop e).take req ≠ [] := by
      apply List.ne_nil_of_length_pos
      rw [List.length_take, List.length_drop]
      omega
    rw [hres]
    refine ⟨st', ?_, ?_⟩
    · simp [hne]
    · have hidx : e + min (req - ([] : List Nat).length) (b.length - e) =
          min (e + req) b.length := by
        simp only [List.length_nil, Nat.sub_zero]
        omega
      rwa [hidx] at hinvE'
  · intro hebl
    rcases hinvE with hinv | ⟨heof, _⟩
    case right.inr.intro =>
      refine ⟨st, ?_⟩
      unfold vibe_zstd_reader_read
      rw [if_pos heof]
    obtain ⟨he, heof, hrep⟩ := hinv
    unfold vibe_zstd_reader_read
    rw [if_neg (by simp [heof])]
    simp only [reader_requested_size]
    obtain ⟨st', hres, hinvE'⟩ := reader_loop_toy ibs req hibs hreq
      ((st.win.length - st.winPos) + (st.source.length - st.srcPos) + 2)
      b e st [] false ⟨he, heof, hrep⟩ hfuel (by simp)
    refine ⟨st', ?_⟩
    rw [hres]
    have hnil : b.drop e = [] := by
      rw [hebl, List.drop_length]
    simp [hnil]

theorem reader_read_all_toy (ibs req : Nat) (hibs : 1 ≤ ibs)
    (hreq : 1 ≤ req) :
    ∀ (fuel : Nat) (b : List Nat) (e : Nat) (st : ReaderSt DSt),
    ReaderInvE b e st →
    b.length - e < fuel →
    ∃ cs, reader_read_all toyDStep ibs req fuel st = some cs ∧
      cs.flatten = b.drop e ∧ ∀ x ∈ cs, x ≠ [] := by
  intro fuel
  induction fuel with
  | zero => intro b e st h hf; omega
  | succ f ih =>
    intro b e st hinvE hf
    unfold reader_read_all
    by_cases helt : e < b.length
    · obtain ⟨st', hres, hinvE'⟩ :=
        (reader_read_toy ibs req hibs hreq b e st hinvE).1 helt
      rw [hres]
      simp only []
      have hchne : (b.drop e).take req ≠ [] := by
        apply List.ne_nil_of_length_pos
        rw [List.length_take, List.length_drop]
        omega
      have he' : b.length - min (e + req) b.length < f := by omega
      obtain ⟨cs, hcs, hflat, hne⟩ := ih b (min (e + req) b.length) st'
        hinvE' he'
      rw [hcs]
      refine ⟨(b.drop e).take req :: cs, rfl, ?_, ?_⟩
      · rw [List.flatten_cons, hflat]
        have hdd : b.drop (min (e + req) b.length) = (b.drop e).drop req := by
          rcases le_or_lt (e + req) b.length with h | h
          · rw [Nat.min_eq_left h]
            exact (List.drop_drop req e b).symm
          · rw [Nat.min_eq_right (by omega), List.drop_length]
            symm
            apply List.drop_eq_nil_of_le
            rw [List.length_drop]
            omega
        rw [hdd, List.take_append_drop]
      · intro x hx
        rcases List.mem_cons.mp hx with h | h
        · rw [h]; exact hchne
        · exact hne x h
    · have hebl : e = b.length := by
        rcases hinvE with ⟨he, -, -⟩ | ⟨-, h⟩ <;> omega
      obtain ⟨st', hres⟩ :=
        (reader_read_toy ibs req hibs hreq b e st hinvE).2 hebl
      rw [hres]
      refine ⟨[], rfl, ?_, by simp⟩
      simp [hebl]

/-- C2: for every input `b`, every write chunk size `c ≥ 1` and every read
request size `c' ≥ 1` (and any positive writer scratch size and reader
input-buffer size), writing `b` through the StreamWriter in chunks of size
`c` and finishing, then reading the written bytes back through a
StreamReader requesting `c'` bytes at a time until it returns the
end-of-stream marker, yields chunks that concatenate to exactly `b`; every
chunk before the marker is non-empty, and the marker is returned exactly
once all of `b` has been (the chunk list is complete and the run ends at
the first marker). -/
theorem streaming_write_read_roundtrip (b : List Nat) (c c' obs ibs : Nat)
    (hc : 1 ≤ c) (hc' : 1 ≤ c') (hobs : 1 ≤ obs) (hibs : 1 ≤ ibs) :
    ∃ wst cs,
      writer_pipeline obs b c = .ok wst ∧
      reader_read_all toyDStep ibs c' (b.length + 1)
        (initReader DSt.tag wst.sink) = some cs ∧
      cs.flatten = b ∧ (∀ x ∈ cs, x ≠ []) := by
  have hpipe := writer_pipeline_toy obs b c hobs hc
  have hinv : ReaderInvE b 0 (initReader DSt.tag (tenc b)) := by
    refine Or.inl ⟨Nat.zero_le _, rfl, ?_⟩
    simp [initReader, readerPend, DecRepr]
  obtain ⟨cs, hcs, hflat, hne⟩ := reader_read_all_toy ibs c' hibs hc'
    (b.length + 1) b 0 (initReader DSt.tag (tenc b)) hinv (by omega)
  refine ⟨{ cst := { acc := b, pending := some [] }, sink := tenc b }, cs,
    hpipe, hcs, ?_, hne⟩
  simpa using hflat

/-- C2 witness: a concrete payload with write chunk size 2, read request
size 1, scratch size 3 and input-buffer size 2. -/
theorem streaming_write_read_roundtrip_witness :
    ∃ wst cs,
      writer_pipeline 3 [5, 6, 7] 2 = .ok wst ∧
      reader_read_all toyDStep 2 1 (([5, 6, 7] : List Nat).length + 1)
        (initReader DSt.tag wst.sink) = some cs ∧
      cs.flatten = [5, 6, 7] ∧ (∀ x ∈ cs, x ≠ []) :=
  streaming_write_read_roundtrip [5, 6, 7] 2 1 3 2 (by decide) (by decide)
    (by decide) (by decide)
